import Mathlib

/-!
# Verification of the ACBUDDY deep-research pipeline core

Shallow embedding, in Lean 4, of the pure orchestration core of the
ACBUDDY research pipeline:

* `app/agents/json_utils.py`        — `parse_json_response`
* `app/models/depth.py`             — `detect_depth`
* `app/agents/synthesis_evaluator.py` — `evaluate_synthesis` (post-processing)
* `app/agents/iterative_researcher.py` — `run_iterative_study` (round loop)
* `app/agents/deep_pipeline.py`     — `execute_deep_research` (phase graph)

Python strings are modelled as `List Char`; Python's `json.loads` is
modelled by a fuel-based recursive-descent JSON reader (standard JSON:
null/true/false, numbers as rationals, strings with escapes, arrays,
objects; the non-standard NaN/Infinity extensions and the leading-zero
restriction of the Python reader are not modelled, no claim depends on
them).  LLM/agent calls are abstracted as oracle environments: each
model response that the code would receive over the network is a plain
input of the embedded function, every piece of logic the code applies
to such responses is translated from the source.
-/

/-- Python `str` is modelled as a list of characters. -/
abbrev Str := List Char

/-- Shorthand used by concrete test inputs in theorems. -/
def S (s : String) : Str := s.toList

/-- The four whitespace characters skipped by Python's `json` scanner. -/
def jsonWsChar (c : Char) : Bool :=
  c = ' ' || c = '\t' || c = '\n' || c = '\r'

/-- Python `\s` / `str.strip()` whitespace (ASCII): space, \t, \n, \r,
\x0b (vertical tab), \x0c (form feed). -/
def pyWsChar (c : Char) : Bool :=
  jsonWsChar c || c = Char.ofNat 11 || c = Char.ofNat 12

/-- Exact decimal number `man * 10 ^ exp`: every numeric literal the
embedded code compares against (8.0, 7.5, 5.0, 0) and every number a
JSON text can denote is of this form, and the order on these values
agrees with Python float order on all comparisons the code performs. -/
structure JNum where
  man : Int
  exp : Int
deriving DecidableEq

/-- Order on exact decimals by cross-scaling to a common exponent. -/
def JNum.blt (a b : JNum) : Bool :=
  if a.exp ≤ b.exp then a.man < b.man * 10 ^ (b.exp - a.exp).toNat
  else a.man * 10 ^ (a.exp - b.exp).toNat < b.man

/-- The rational value an exact decimal denotes (used only in proofs). -/
def JNum.val (a : JNum) : ℚ := (a.man : ℚ) * (10 : ℚ) ^ a.exp

/-- Python value universe for everything `json.loads` can return. -/
inductive Json where
  | null : Json
  | bool : Bool → Json
  | num  : JNum → Json
  | str  : Str → Json
  | arr  : List Json → Json
  | obj  : List (Str × Json) → Json

/-- An integer as a JSON number. -/
def jint (n : Int) : Json := .num ⟨n, 0⟩

/-- Last-binding-wins lookup in an association list: Python dicts keep
one binding per key, later duplicate keys in a JSON text override
earlier ones, which a right-to-left lookup over the member list models
exactly. -/
def lookupLast (kvs : List (Str × Json)) (k : Str) : Option Json :=
  match kvs with
  | [] => none
  | kv :: rest =>
    match lookupLast rest k with
    | some v => some v
    | none => if kv.1 = k then some kv.2 else none

/-- Python `d.get(k, default)` on a parsed JSON object; on non-dicts the
embedding only ever calls this where the source has checked
`isinstance(_, dict)` first. -/
def Json.getD (j : Json) (k : Str) (d : Json) : Json :=
  match j with
  | .obj kvs => (lookupLast kvs k).getD d
  | _ => d

/-- Python `d.get(k)` (`None` when absent). -/
def Json.get? (j : Json) (k : Str) : Option Json :=
  match j with
  | .obj kvs => lookupLast kvs k
  | _ => none

/-- Python `d[k] = v`: replace the binding if present, else append. -/
def Json.setKey (j : Json) (k : Str) (v : Json) : Json :=
  match j with
  | .obj kvs =>
    if (kvs.map Prod.fst).contains k then
      .obj (kvs.map (fun kv => if kv.1 = k then (k, v) else kv))
    else
      .obj (kvs ++ [(k, v)])
  | other => other

/-- Python truthiness of a JSON value (`bool(x)`). -/
def Json.truthy : Json → Bool
  | .null => false
  | .bool b => b
  | .num q => q.man ≠ 0
  | .str s => !s.isEmpty
  | .arr xs => !xs.isEmpty
  | .obj kvs => !kvs.isEmpty

def Json.isObj : Json → Bool
  | .obj _ => true
  | _ => false

def Json.isArr : Json → Bool
  | .arr _ => true
  | _ => false

/-! ## `json.loads` — recursive-descent JSON reader

Fuel-based so that every definition is structurally recursive and
kernel-reducible.  The fuel decreases by one per nested construct and
per parsed element, and at least one input character is consumed
alongside every such step, so `length + 1` fuel always suffices. -/

def hexVal (c : Char) : Option Nat :=
  if '0' ≤ c ∧ c ≤ '9' then some (c.toNat - 48)
  else if 'a' ≤ c ∧ c ≤ 'f' then some (c.toNat - 87)
  else if 'A' ≤ c ∧ c ≤ 'F' then some (c.toNat - 55)
  else none

def escChar (c : Char) : Option Char :=
  if c = '"' then some '"'
  else if c = '\\' then some '\\'
  else if c = '/' then some '/'
  else if c = 'b' then some (Char.ofNat 8)
  else if c = 'f' then some (Char.ofNat 12)
  else if c = 'n' then some '\n'
  else if c = 'r' then some '\r'
  else if c = 't' then some '\t'
  else none

/-- Scan the body of a JSON string literal (the opening quote already
consumed); returns the decoded characters and the input after the
closing quote. -/
def scanStrBody : Str → Option (Str × Str)
  | [] => none
  | '"' :: t => some ([], t)
  | '\\' :: 'u' :: a :: b :: c :: d :: t => do
    let va ← hexVal a
    let vb ← hexVal b
    let vc ← hexVal c
    let vd ← hexVal d
    let (o, r) ← scanStrBody t
    some (Char.ofNat (((va * 16 + vb) * 16 + vc) * 16 + vd) :: o, r)
  | '\\' :: e :: t => do
    let ec ← escChar e
    let (o, r) ← scanStrBody t
    some (ec :: o, r)
  | c :: t => do
    let (o, r) ← scanStrBody t
    some (c :: o, r)

/-- Value of a list of decimal digits. -/
def digitsVal (ds : Str) : Nat :=
  ds.foldl (fun a c => a * 10 + (c.toNat - 48)) 0

/-- Parse a JSON number starting at the first character of the input
(grammar `-? digits (. digits)? ([eE] [+-]? digits)?`; the JSON
leading-zero restriction is not enforced, which no claim depends on). -/
def parseNum (s : Str) : Option (Json × Str) :=
  let (neg, s1) := match s with
    | '-' :: t => (true, t)
    | _ => (false, s)
  let ip := s1.takeWhile Char.isDigit
  let r1 := s1.dropWhile Char.isDigit
  if ip.isEmpty then none else
  let (fr, r2) := match r1 with
    | '.' :: t => (some (t.takeWhile Char.isDigit), t.dropWhile Char.isDigit)
    | _ => (none, r1)
  if fr = some [] then none else
  let (ex, r3) := match r2 with
    | 'e' :: '+' :: t => (some (true, t.takeWhile Char.isDigit), t.dropWhile Char.isDigit)
    | 'e' :: '-' :: t => (some (false, t.takeWhile Char.isDigit), t.dropWhile Char.isDigit)
    | 'e' :: t => (some (true, t.takeWhile Char.isDigit), t.dropWhile Char.isDigit)
    | 'E' :: '+' :: t => (some (true, t.takeWhile Char.isDigit), t.dropWhile Char.isDigit)
    | 'E' :: '-' :: t => (some (false, t.takeWhile Char.isDigit), t.dropWhile Char.isDigit)
    | 'E' :: t => (some (true, t.takeWhile Char.isDigit), t.dropWhile Char.isDigit)
    | _ => (none, r2)
  if (ex.map Prod.snd) = some [] then none else
  let fracDigits := fr.getD []
  let mant : Int := (digitsVal (ip ++ fracDigits) : ℕ)
  let expPart : Int := match ex with
    | some (epos, eds) => if epos then (digitsVal eds : ℕ) else -(digitsVal eds : ℕ)
    | none => 0
  some (.num ⟨(if neg then -mant else mant), expPart - fracDigits.length⟩, r3)

mutual

/-- Parse one JSON value (leading whitespace skipped). -/
def parseVal : Nat → Str → Option (Json × Str)
  | 0, _ => none
  | Nat.succ n, s =>
    match s.dropWhile jsonWsChar with
    | [] => none
    | '\x7b' :: t => (parseObjRest n t).map (fun p => (Json.obj p.1, p.2))
    | '[' :: t => (parseArrRest n t).map (fun p => (Json.arr p.1, p.2))
    | '"' :: t => (scanStrBody t).map (fun p => (Json.str p.1, p.2))
    | 't' :: t => if t.take 3 = ['r', 'u', 'e'] then some (.bool true, t.drop 3) else none
    | 'f' :: t => if t.take 4 = ['a', 'l', 's', 'e'] then some (.bool false, t.drop 4) else none
    | 'n' :: t => if t.take 3 = ['u', 'l', 'l'] then some (.null, t.drop 3) else none
    | c :: t => if c = '-' || c.isDigit then parseNum (c :: t) else none

/-- Parse the elements of an array, the `[` already consumed. -/
def parseArrRest : Nat → Str → Option (List Json × Str)
  | 0, _ => none
  | Nat.succ n, s =>
    match s.dropWhile jsonWsChar with
    | ']' :: t => some ([], t)
    | u => do
      let (v, r) ← parseVal n u
      let (xs, r') ← parseArrMore n r
      some (v :: xs, r')

/-- After one array element: expect `,` and another element, or `]`. -/
def parseArrMore : Nat → Str → Option (List Json × Str)
  | 0, _ => none
  | Nat.succ n, s =>
    match s.dropWhile jsonWsChar with
    | ']' :: t => some ([], t)
    | ',' :: t => do
      let (v, r) ← parseVal n t
      let (xs, r') ← parseArrMore n r
      some (v :: xs, r')
    | _ => none

/-- Parse the members of an object, the `{` already consumed. -/
def parseObjRest : Nat → Str → Option (List (Str × Json) × Str)
  | 0, _ => none
  | Nat.succ n, s =>
    match s.dropWhile jsonWsChar with
    | '}' :: t => some ([], t)
    | '"' :: t => do
      let (k, r) ← scanStrBody t
      match r.dropWhile jsonWsChar with
      | ':' :: t2 => do
        let (v, r2) ← parseVal n t2
        let (kvs, r3) ← parseObjMore n r2
        some ((k, v) :: kvs, r3)
      | _ => none
    | _ => none

/-- After one object member: expect a comma and another member, or the
closing brace. -/
def parseObjMore : Nat → Str → Option (List (Str × Json) × Str)
  | 0, _ => none
  | Nat.succ n, s =>
    match s.dropWhile jsonWsChar with
    | '\x7d' :: t => some ([], t)
    | ',' :: t =>
      match t.dropWhile jsonWsChar with
      | '"' :: t' => do
        let (k, r) ← scanStrBody t'
        match r.dropWhile jsonWsChar with
        | ':' :: t2 => do
          let (v, r2) ← parseVal n t2
          let (kvs, r3) ← parseObjMore n r2
          some ((k, v) :: kvs, r3)
        | _ => none
      | _ => none
    | _ => none

end

/-- Model of Python `json.loads`: one JSON value, whitespace allowed on
both sides, the whole input consumed; `none` models `JSONDecodeError`. -/
def jsonLoads (s : Str) : Option Json :=
  match parseVal (s.length + 1) s with
  | some (v, r) => if (r.dropWhile jsonWsChar).isEmpty then some v else none
  | none => none

/-! ## `parse_json_response` (app/agents/json_utils.py)

```python
def parse_json_response(text: str) -> any:
    if not text:
        return None
    cleaned = re.sub(r"```(?:json)?\s*", "", text)
    cleaned = re.sub(r"```\s*$", "", cleaned)
    cleaned = cleaned.strip()
    try:
        return json.loads(cleaned)
    except (json.JSONDecodeError, TypeError):
        pass
    for pattern in [r"\[[\s\S]*\]", r"\{[\s\S]*\}"]:
        match = re.search(pattern, cleaned)
        if match:
            try:
                return json.loads(match.group())
            except (json.JSONDecodeError, TypeError):
                continue
    return None
```
-/

/-- Scanner for `re.sub(r"```(?:json)?\s*", "", text)`.  The Boolean
flag records that the previous characters were an (already removed)
fence possibly followed by removed whitespace, in which case further
whitespace is still part of that match's `\s*` and is dropped. -/
def fenceSubGo : Bool → Str → Str
  | _, [] => []
  | _, '`' :: '`' :: '`' :: 'j' :: 's' :: 'o' :: 'n' :: t => fenceSubGo true t
  | _, '`' :: '`' :: '`' :: t => fenceSubGo true t
  | b, c :: t => if b && pyWsChar c then fenceSubGo true t else c :: fenceSubGo false t

/-- `re.sub(r"```(?:json)?\s*", "", text)`. -/
def fenceSub (s : Str) : Str := fenceSubGo false s

/-- `re.sub(r"```\s*$", "", s)`: the pattern matches (once) at the first
position from which the rest of the input is "```" followed only by
whitespace, and the greedy `\s*` then extends the match to the end. -/
def tailFenceSub : Str → Str
  | [] => []
  | c :: t =>
    if c = '`' ∧ t.take 2 = ['`', '`'] ∧ (t.drop 2).all pyWsChar then []
    else c :: tailFenceSub t

/-- Python `str.strip()` (ASCII whitespace). -/
def pyStrip (s : Str) : Str :=
  ((s.dropWhile pyWsChar).reverse.dropWhile pyWsChar).reverse

/-- `re.search(r"\[[\s\S]*\]", s)` (and the `{`/`}` variant): the
leftmost match runs from the first opener that has a closer after it to
the last closer in the input; such a match exists iff the first opener
sits strictly before the last closer. -/
def bracketSpan (o c : Char) (s : Str) : Option Str :=
  match s.findIdx? (· = o), s.reverse.findIdx? (· = c) with
  | some i, some jr =>
    let j := s.length - 1 - jr
    if i < j then some ((s.drop i).take (j - i + 1)) else none
  | _, _ => none

/-- `parse_json_response` from `app/agents/json_utils.py`. -/
def parse_json_response (text : Str) : Option Json :=
  if text.isEmpty then none
  else
    let cleaned := pyStrip (tailFenceSub (fenceSub text))
    match jsonLoads cleaned with
    | some v => some v
    | none =>
      match (bracketSpan '[' ']' cleaned).bind jsonLoads with
      | some v => some v
      | none => (bracketSpan '{' '}' cleaned).bind jsonLoads

/-! ## `detect_depth` (app/models/depth.py) -/

/-- Python `needle in hay` on strings. -/
def containsSub : Str → Str → Bool
  | [], needle => needle.isEmpty
  | hay@(_ :: t), needle => needle.isPrefixOf hay || containsSub t needle

def DEEP_KEYWORDS : List Str :=
  [S "deep dive", S "comprehensive", S "in-depth", S "thorough analysis", S "detailed research"]

def QUICK_KEYWORDS : List Str :=
  [S "quick research", S "brief", S "quick look", S "short summary", S "fast research"]

inductive ResearchDepth where
  | quick
  | standard
  | deep
deriving DecidableEq

/-- `detect_depth` from `app/models/depth.py`: lowercase the text, return
DEEP on the first DEEP keyword contained in it, else QUICK on the first
QUICK keyword, else STANDARD. -/
def detect_depth (user_text : Str) : ResearchDepth :=
  let lower := user_text.map Char.toLower
  if DEEP_KEYWORDS.any (fun kw => containsSub lower kw) then .deep
  else if QUICK_KEYWORDS.any (fun kw => containsSub lower kw) then .quick
  else .standard

/-! ## Python-semantics helpers for code operating on parsed JSON

`Except Unit` models an uncaught Python exception (`TypeError`,
`AttributeError`): `.error ()` aborts the surrounding computation
exactly where the source would raise. -/

/-- Python `x < q` for a parsed JSON value against a float constant:
numbers and bools compare, everything else raises `TypeError`. -/
def pyLtNum (j : Json) (q : JNum) : Except Unit Bool :=
  match j with
  | .num a => .ok (a.blt q)
  | .bool b => .ok (JNum.blt ⟨if b then 1 else 0, 0⟩ q)
  | _ => .error ()

/-- Python `x > q` (same admissible operand types). -/
def pyGtNum (j : Json) (q : JNum) : Except Unit Bool :=
  match j with
  | .num a => .ok (JNum.blt q a)
  | .bool b => .ok (JNum.blt q ⟨if b then 1 else 0, 0⟩)
  | _ => .error ()

/-- Python `for x in v`: lists yield elements, strings yield 1-character
strings, dicts yield their keys; other values raise `TypeError`. -/
def pyIterElems : Json → Except Unit (List Json)
  | .arr xs => .ok xs
  | .str s => .ok (s.map (fun c => Json.str [c]))
  | .obj kvs => .ok (kvs.map (fun kv => Json.str kv.1))
  | _ => .error ()

/-- Python `len(v)` (same admissible types as iteration). -/
def pyLen : Json → Except Unit Nat
  | .arr xs => .ok xs.length
  | .str s => .ok s.length
  | .obj kvs => .ok kvs.length
  | _ => .error ()

/-- Python `g.get(k)` where `g` must be a dict (`AttributeError`
otherwise). -/
def pyGetAttrGet (g : Json) (k : Str) : Except Unit (Option Json) :=
  match g with
  | .obj kvs => .ok (lookupLast kvs k)
  | _ => .error ()

/-- Python `v == "lit"` (never raises; non-strings are unequal). -/
def pyEqStr (v : Option Json) (s : Str) : Bool :=
  match v with
  | some (.str t) => t = s
  | _ => false

/-- Python `v[:3]` — slicing keeps lists as lists and strings as
strings; any other (truthy) value raises `TypeError`. -/
def pySlice3 : Json → Except Unit Json
  | .arr xs => .ok (.arr (xs.take 3))
  | .str s => .ok (.str (s.take 3))
  | _ => .error ()

/-! ## `evaluate_synthesis` post-processing (app/agents/synthesis_evaluator.py)

The LLM round trip is abstracted: `eval_text` is the evaluator model's
raw response; everything the function does to that response is embedded.
-/

/-- `REFINEMENT_THRESHOLD = 8.0`. -/
def REFINEMENT_THRESHOLD : JNum := ⟨8, 0⟩

/-- The default returned when the evaluation cannot be parsed. -/
def defaultEvaluation : Json :=
  .obj [(S "overall_score", .num ⟨5, 0⟩), (S "scores", .obj []), (S "gaps", .arr []),
        (S "weak_claims", .arr []), (S "missing_perspectives", .arr []),
        (S "refinement_needed", .bool true)]

/-- `any(g.get("priority") == "high" for g in gaps)` — short-circuits on
the first hit, so a later malformed entry is never touched. -/
def anyHighGap : List Json → Except Unit Bool
  | [] => .ok false
  | g :: rest => do
    let p ← pyGetAttrGet g (S "priority")
    if pyEqStr p (S "high") then .ok true else anyHighGap rest

/-- `evaluate_synthesis` from `app/agents/synthesis_evaluator.py`
(post-processing of the evaluator response): parse; on anything but a
dict return the default (score 5.0, refinement needed); otherwise
overwrite `refinement_needed` with
`overall_score < REFINEMENT_THRESHOLD or has_high_gaps`. -/
def evaluate_synthesis (eval_text : Str) : Except Unit Json :=
  match parse_json_response eval_text with
  | some d@(.obj _) => do
    let overall := d.getD (S "overall_score") (.num ⟨5, 0⟩)
    let gapElems ← pyIterElems (d.getD (S "gaps") (.arr []))
    let hasHigh ← anyHighGap gapElems
    let lt ← pyLtNum overall REFINEMENT_THRESHOLD
    .ok (d.setKey (S "refinement_needed") (.bool (lt || hasHigh)))
  | _ => .ok defaultEvaluation

/-! ## `run_iterative_study` round loop (app/agents/iterative_researcher.py)

LLM/agent calls are oracles: `researcherOut r j` is researcher `j`'s
output in round `r` (`none` models the researcher leaving no session
state, in which case the code logs a warning, stores a placeholder in
the session state, and omits the key from the round's findings);
`gapText r` is the gap analyzer's raw output for round `r` (the code
reads it from `state.get(gap_key, gap_text)`); `synthText` is the
per-study synthesis response.  Network retries (`ROUND_MAX_RETRIES`)
only repeat a call or re-raise, they do not change the data flow, so
they have no counterpart on total oracles. -/

structure StudyEnv where
  researcherOut : Nat → Nat → Option Str
  gapText : Nat → Str
  synthText : Str

/-- `StudyResult` from `app/models/research_result.py` (the fields the
round loop touches; `title`/`angle`/`questions` keep whatever value the
untyped Python code stored in them). -/
structure StudyResult where
  title : Json
  angle : Json
  questions : Json
  rounds : List (List (Str × Str))
  synthesis : Str

def natStr (n : Nat) : Str := (Nat.repr n).toList

/-- `f"study_{i}_round_{r}_researcher_{j}"`. -/
def researcherKey (i r j : Nat) : Str :=
  S "study_" ++ natStr i ++ S "_round_" ++ natStr r ++ S "_researcher_" ++ natStr j

/-- The decision taken on one parsed gap-analysis response
(`iterative_researcher.py` lines 163–176): `ok none` breaks the round
loop, `ok (some qs)` continues with `qs` as the next round's questions
(`new_questions[:3]`), `.error` is an uncaught `TypeError` from slicing
a truthy non-sliceable `gaps` value. -/
def gapContinue (gd : Option Json) : Except Unit (Option Json) :=
  match gd with
  | some d@(.obj _) =>
    if (d.getD (S "escalate") (.bool true)).truthy then .ok none
    else
      let nq := d.getD (S "gaps") (.arr [])
      if !nq.truthy then .ok none
      else do
        let sliced ← pySlice3 nq
        .ok (some sliced)
  | _ => .ok none

/-- Gap decision on the raw analyzer text. -/
def gapDecision (raw : Str) : Except Unit (Option Json) :=
  gapContinue (parse_json_response raw)

/-- One round of the loop body plus the continue/stop decision;
`remaining` counts loop iterations still allowed (`max_rounds -
round_idx`), so `remaining = 1` is the last round, on which gap analysis
is skipped (`if round_idx >= max_rounds - 1: break`). -/
def runRoundsGo (env : StudyEnv) (i : Nat) :
    Nat → Nat → Json → List (List (Str × Str)) →
    Except Unit (List (List (Str × Str)))
  | _, 0, _, acc => .ok acc
  | r, Nat.succ rem, questions, acc => do
    let n ← pyLen questions
    let findings := (List.range n).filterMap
      (fun j => (env.researcherOut r j).map (fun v => (researcherKey i r j, v)))
    let acc' := acc ++ [findings]
    if rem = 0 then .ok acc'
    else
      match ← gapDecision (env.gapText r) with
      | none => .ok acc'
      | some qs => runRoundsGo env i (r + 1) rem qs acc'

/-- `run_iterative_study` from `app/agents/iterative_researcher.py`:
resolve title/angle/questions from the study dict, run at most
`max_rounds` rounds, then attach the synthesis. -/
def run_iterative_study (env : StudyEnv) (study : Json) (study_index : Nat)
    (max_rounds : Nat) : Except Unit StudyResult :=
  match study with
  | .obj _ => do
    let title := study.getD (S "title") (.str (S "Study " ++ natStr study_index))
    let angle := study.getD (S "angle") (.str [])
    let q0 := study.getD (S "questions") (.arr [])
    let questions := if !q0.truthy then Json.arr [title] else q0
    let rounds ← runRoundsGo env study_index 0 max_rounds questions []
    .ok ⟨title, angle, questions, rounds, env.synthText⟩
  | _ => .error ()

/-! ## `execute_deep_research` (app/agents/deep_pipeline.py)

The phase graph of the DEEP pipeline.  Every LLM/agent round trip is an
oracle in `DeepEnv`; every piece of control flow, parsing, fallback and
field update applied to those responses is translated from the source.
`PipeEvent` records the externally visible effects the main coroutine
performs in order: the `_progress(...)` callbacks (recorded by their
`step=` keyword; the per-task progress calls issued inside concurrently
gathered study/Q&A tasks are omitted — their interleaving is
unspecified and none of them persists anything), and checkpoint
persistence (`gcs_client.save_checkpoint`), which the source never
invokes — `execute_deep_research`, and its callers in
`research_orchestrator.py`, contain no call to it. -/

inductive PipeEvent where
  | progress (step : Str)
  | checkpointSave (tag : Str)
deriving DecidableEq

def PipeEvent.isCheckpointSave : PipeEvent → Bool
  | .checkpointSave _ => true
  | _ => false

/-- `QAClusterResult` from `app/models/research_result.py` (fields the
pipeline touches). -/
structure QAClusterResult where
  theme : Json
  questions : Json
  findings : Str

/-- `ResearchResult` from `app/models/research_result.py` (the DEEP
fields `execute_deep_research` touches; `synthesis_score` and
`synthesis_scores` hold whatever JSON value the untyped Python code
stored). -/
structure ResearchResult where
  original_query : Str
  study_plan : List Json
  studies : List StudyResult
  master_synthesis : Str
  qa_clusters : List QAClusterResult
  qa_summary : Str
  strategic_analysis : Str
  query_analysis : Json
  claim_validation : Json
  synthesis_score : Json
  synthesis_scores : Json
  refinement_rounds : Nat

def ResearchResult.init (query : Str) : ResearchResult :=
  ⟨query, [], [], [], [], [], [], .obj [], .obj [], .num ⟨0, 0⟩, .obj [], 0⟩

inductive PipeOutcome where
  | ok (r : ResearchResult)
  | exn

/-- A pipeline run: its outcome (`exn` = an uncaught Python exception)
and the ordered effect trace of the main coroutine. -/
structure PipeRun where
  outcome : PipeOutcome
  events : List PipeEvent

def jobOf (p : PipeRun) : Option ResearchResult :=
  match p.outcome with
  | .ok r => some r
  | .exn => none

/-- Oracle environment: the model responses and sub-agent outcomes a
run of `execute_deep_research` would receive. -/
structure DeepEnv where
  queryAnalysis : Json
  planText : Str
  studyRun : Nat → Json → Except Unit StudyResult
  masterText : Str
  claimValidation : Except Unit Json
  evalText : Nat → Str
  gapStudyRun : Nat → Json → Except Unit StudyResult
  refineText : Nat → Str
  factCheckText : Str
  devilsText : Str
  verifyText : Str
  strategicRun : Except Unit Str
  qaText : Str
  qaClusterRun : Nat → Json → Except Unit Str

/-- `MAX_CONCURRENT_STUDIES = 3` (deep_pipeline.py line 29). -/
def MAX_CONCURRENT_STUDIES : Nat := 3

/-- `MAX_CONCURRENT_QA = 3` (deep_pipeline.py line 30). -/
def MAX_CONCURRENT_QA : Nat := 3

/-- `asyncio.gather` without `return_exceptions`: re-raise if any task
raised, else the list of results in task order. -/
def liftList : List (Except Unit α) → Except Unit (List α)
  | [] => .ok []
  | .error e :: _ => .error e
  | .ok a :: rest => (liftList rest).map (a :: ·)

/-- The single-study fallback when the planner output is unusable
(deep_pipeline.py line 155):
`[{"title": query, "angle": "General research", "questions": [query]}]`. -/
def fallbackStudy (query : Str) : Json :=
  .obj [(S "title", .str query), (S "angle", .str (S "General research")),
        (S "questions", .arr [.str query])]

/-- Phase 1 study-plan resolution (deep_pipeline.py lines 152–158):
parse the planner text; anything but a non-empty list falls back to the
single fallback study; then apply the `max_studies` cap. -/
def planStudies (planText query : Str) (max_studies : Nat) : List Json :=
  let studies := match parse_json_response planText with
    | some (.arr xs) => if xs.isEmpty then [fallbackStudy query] else xs
    | _ => [fallbackStudy query]
  if max_studies > 0 then studies.take max_studies else studies

/-- One `_study_with_sem` task (deep_pipeline.py lines 173–220): the
title/angle lookups before the `try:` require the study to be a dict
(`AttributeError` otherwise); any exception inside the `try` is caught
and becomes a `StudyResult` with empty synthesis. -/
def runStudyTask (env : DeepEnv) (i : Nat) (s : Json) : Except Unit StudyResult :=
  match s with
  | .obj _ =>
    match env.studyRun i s with
    | .ok sr => .ok sr
    | .error _ =>
      .ok ⟨s.getD (S "title") (.str (S "Study " ++ natStr i)),
           s.getD (S "angle") (.str []), .arr [], [], []⟩
  | _ => .error ()

/-- Python `v[:n]` (lists and strings slice; other values raise
`TypeError`). -/
def pySliceTake (n : Nat) : Json → Except Unit Json
  | .arr xs => .ok (.arr (xs.take n))
  | .str s => .ok (.str (s.take n))
  | _ => .error ()

/-- Rendering of an f-string interpolation for the gap-study title.
Exact for strings; non-string question values (which no claim inspects
and the deployed prompts never produce) render as empty. -/
def renderForTitle : Json → Str
  | .str s => s
  | _ => []

/-- One `_gap_study_with_sem` task (deep_pipeline.py lines 417–441):
the gap-study dict (including `question[:80]` in the title) is built
before the `try:`, so a non-sliceable question raises out of the
pipeline; a caught failure yields a `StudyResult` with empty
synthesis. -/
def runGapStudyTask (env : DeepEnv) (idx : Nat) (question : Json) :
    Except Unit StudyResult := do
  let sliced ← pySliceTake 80 question
  let titleStr := S "Gap Study: " ++ renderForTitle sliced
  match env.gapStudyRun idx question with
  | .ok sr => .ok sr
  | .error _ =>
    .ok ⟨.str titleStr, .str (S "Addressing gap identified in synthesis evaluation"),
         .arr [], [], []⟩

/-- Extraction of actionable gap questions from an evaluation
(deep_pipeline.py lines 396–401): iterate `gaps` (each element must be
a dict), keep `g["research_question"]` when it is truthy and
`g["priority"]` is "high" or "medium". -/
def gapQuestions (gaps : Json) : Except Unit (List Json) := do
  let elems ← pyIterElems gaps
  elems.foldlM (fun acc g => do
    let rq ← pyGetAttrGet g (S "research_question")
    let pr ← pyGetAttrGet g (S "priority")
    let keep := (match rq with | some v => v.truthy | none => false) &&
                (pyEqStr pr (S "high") || pyEqStr pr (S "medium"))
    pure (if keep then acc ++ [rq.getD .null] else acc)) []

/-- The gap-study tasks of one refinement round (`enumerate` over the
capped question list, indices offset by the pre-existing study count). -/
def runGapStudies (env : DeepEnv) : Nat → List Json → List (Except Unit StudyResult)
  | _, [] => []
  | idx, q :: rest => runGapStudyTask env idx q :: runGapStudies env (idx + 1) rest

/-- Phase 4b evaluation-and-refinement loop (deep_pipeline.py lines
374–638).  `remaining` counts the iterations still allowed
(`max_refinement_rounds = 2`), `idx` is `refine_round`.  Mirrors the
source exactly: `refinement_rounds := refine_round + 1` is assigned on
every iteration *before* the `refinement_needed` check. -/
def refineLoop (env : DeepEnv) :
    Nat → Nat → ResearchResult → List PipeEvent →
    List PipeEvent × Except Unit ResearchResult
  | 0, _, r, ev => (ev, .ok r)
  | Nat.succ rem, idx, r, ev =>
    let ev := ev ++ [.progress (S "evaluation")]
    match evaluate_synthesis (env.evalText idx) with
    | .error _ => (ev, .error ())
    | .ok evaluation =>
      let r := { r with
        synthesis_score := evaluation.getD (S "overall_score") (.num ⟨0, 0⟩),
        synthesis_scores := evaluation.getD (S "scores") (.obj []),
        refinement_rounds := idx + 1 }
      if !(evaluation.getD (S "refinement_needed") (.bool false)).truthy then (ev, .ok r)
      else
        match gapQuestions (evaluation.getD (S "gaps") (.arr [])) with
        | .error _ => (ev, .error ())
        | .ok gq =>
          if gq.isEmpty then (ev, .ok r)
          else
            let gq := gq.take 6
            match liftList (runGapStudies env r.studies.length gq) with
            | .error _ => (ev, .error ())
            | .ok gsrs =>
              let gsrs := gsrs.filter (fun s => !s.synthesis.isEmpty)
              if gsrs.isEmpty then (ev, .ok r)
              else
                let r := { r with studies := r.studies ++ gsrs }
                let ev := ev ++ [.progress (S "refinement")]
                let refined := env.refineText idx
                if refined.isEmpty then (ev, .ok r)
                else refineLoop env rem (idx + 1) { r with master_synthesis := refined } ev

/-- First index `i ≥ start` at which `sub` occurs in `s`
(Python `s.find(sub, start)`, `none` for -1). -/
def indexOfSubFrom (s sub : Str) (start : Nat) : Option Nat :=
  (List.range (s.length + 1)).find? (fun i => decide (start ≤ i) && sub.isPrefixOf (s.drop i))

/-- Phase 4e knowledge-graph enrichment (deep_pipeline.py lines
763–777): when the context carries a "Known entity relationships:"
section, append it to the master synthesis. -/
def kgAugment (master context : Str) : Str :=
  if !master.isEmpty && !context.isEmpty &&
      containsSub context (S "Known entity relationships:") then
    match indexOfSubFrom context (S "Known entity relationships:") 0 with
    | some kgStart =>
      let section_ := match indexOfSubFrom context (S "\n\n") (kgStart + 1) with
        | some kgEnd =>
          if kgStart < kgEnd then (context.drop kgStart).take (kgEnd - kgStart)
          else context.drop kgStart
        | none => context.drop kgStart
      if !(pyStrip section_).isEmpty then
        master ++ S "\n\n## Knowledge Graph Insights\n\n" ++
          S "The following entity relationships were known prior to this research " ++
          S "and cross-referenced with synthesis findings:\n\n" ++ section_
      else master
    | none => master
  else master

/-- One `_research_qa_cluster` task (deep_pipeline.py lines 834–930):
theme/questions lookups happen before the `try:` (dict required); a
falsy question list short-circuits to an empty cluster; a caught
failure yields the cluster with empty findings. -/
def runQaClusterTask (env : DeepEnv) (k : Nat) (c : Json) :
    Except Unit QAClusterResult :=
  match c with
  | .obj _ =>
    let theme := c.getD (S "theme") (.str (S "Cluster " ++ natStr k))
    let questions := c.getD (S "questions") (.arr [])
    if !questions.truthy then .ok ⟨theme, .arr [], []⟩
    else
      match env.qaClusterRun k c with
      | .ok findings => .ok ⟨theme, questions, findings⟩
      | .error _ => .ok ⟨theme, questions, []⟩
  | _ => .error ()

/-- Phase 5 Q&A summary assembly (deep_pipeline.py lines 937–942). -/
def qaSummaryOf (query : Str) (clusters : List QAClusterResult) : Str :=
  let successful := clusters.filter (fun c => !c.findings.isEmpty)
  if successful.isEmpty then []
  else
    (S "# Anticipated Questions & Answers\n\nBased on research: " ++ query ++ S "\n") ++
      (successful.foldl (fun acc c => acc ++ S "\n" ++ S "\n---\n\n" ++ c.findings) [])

/-- The Q&A cluster tasks (`enumerate(clusters)`). -/
def runQaClusters (env : DeepEnv) : Nat → List Json → List (Except Unit QAClusterResult)
  | _, [] => []
  | k, c :: rest => runQaClusterTask env k c :: runQaClusters env (k + 1) rest

/-- Phase 4a: claim validation (deep_pipeline.py lines 356–370; a
failure is caught and non-fatal). -/
def deepPhase4a (env : DeepEnv) (r : ResearchResult) (ev : List PipeEvent) :
    ResearchResult × List PipeEvent :=
  if !r.master_synthesis.isEmpty then
    let ev := ev ++ [.progress (S "claim_validation")]
    match env.claimValidation with
    | .ok cv => ({ r with claim_validation := cv }, ev)
    | .error _ => (r, ev)
  else (r, ev)

/-- Phase 4d: enhanced verification (deep_pipeline.py lines 640–743),
entered when the score is low or the query analysis demands
fact-checking; everything inside its `try` is caught. -/
def deepPhase4d (env : DeepEnv) (lowScore : Bool) (r : ResearchResult)
    (ev : List PipeEvent) : ResearchResult × List PipeEvent :=
  let needsFactCheck := (env.queryAnalysis.getD (S "needs_fact_checking") (.bool false)).truthy
  let isControversial := (env.queryAnalysis.getD (S "controversial") (.bool false)).truthy
  if !r.master_synthesis.isEmpty && (lowScore || needsFactCheck) then
    let ev := ev ++ [.progress (S "verification")]
    let fc := env.factCheckText
    let da := if isControversial || lowScore then env.devilsText else []
    if !fc.isEmpty || !da.isEmpty then
      let ev := ev ++ [.progress (S "refinement")]
      let v := env.verifyText
      if !v.isEmpty then ({ r with master_synthesis := v }, ev) else (r, ev)
    else (r, ev)
  else (r, ev)

/-- Phase 4c: strategic analysis (deep_pipeline.py lines 745–760; a
failure is caught and non-fatal). -/
def deepPhase4c (env : DeepEnv) (r : ResearchResult) (ev : List PipeEvent) :
    ResearchResult × List PipeEvent :=
  if !r.master_synthesis.isEmpty then
    let ev := ev ++ [.progress (S "strategic_analysis")]
    match env.strategicRun with
    | .ok t => ({ r with strategic_analysis := t }, ev)
    | .error _ => (r, ev)
  else (r, ev)

/-- Phase 5: anticipatory Q&A (deep_pipeline.py lines 779–951). -/
def deepPhase5 (env : DeepEnv) (query : Str) (r : ResearchResult)
    (ev : List PipeEvent) : PipeRun :=
  if r.master_synthesis.isEmpty then ⟨.ok r, ev⟩
  else
    let ev := ev ++ [.progress (S "qa")]
    let clusters : Json := match parse_json_response env.qaText with
      | some d@(.obj _) => d.getD (S "clusters") (.arr [])
      | some l@(.arr _) => l
      | _ => .arr []
    if !clusters.truthy then ⟨.ok r, ev⟩
    else
      match pySliceTake 5 clusters with
      | .error _ => ⟨.exn, ev⟩
      | .ok sliced =>
        match pyIterElems sliced with
        | .error _ => ⟨.exn, ev⟩
        | .ok cs =>
          match liftList (runQaClusters env 0 cs) with
          | .error _ => ⟨.exn, ev⟩
          | .ok qcrs =>
            ⟨.ok { r with qa_clusters := qcrs, qa_summary := qaSummaryOf query qcrs }, ev⟩

/-- Phases 4d–5 after the refinement loop: verification, strategic
analysis, knowledge-graph enrichment, Q&A.  The `low_score` comparisons
(`result.synthesis_score > 0 and result.synthesis_score < 7.5`) happen
before the verification `try:` and an uncaught `TypeError` there aborts
the pipeline. -/
def deepPhases4dOn (env : DeepEnv) (query context : Str) (r : ResearchResult)
    (ev : List PipeEvent) : PipeRun :=
  match pyGtNum r.synthesis_score ⟨0, 0⟩ with
  | .error _ => ⟨.exn, ev⟩
  | .ok gt0 =>
    match (if gt0 then pyLtNum r.synthesis_score ⟨75, -1⟩ else .ok false) with
    | .error _ => ⟨.exn, ev⟩
    | .ok lt75 =>
      let p4d := deepPhase4d env (gt0 && lt75) r ev
      let p4c := deepPhase4c env p4d.1 p4d.2
      let r := { p4c.1 with
                 master_synthesis := kgAugment p4c.1.master_synthesis context }
      deepPhase5 env query r p4c.2

/-- Phase 4b entry: the evaluation/refinement loop runs only when a
master synthesis exists (`if result.master_synthesis:`). -/
def deepPhase4b (env : DeepEnv) (r : ResearchResult) (ev : List PipeEvent) :
    List PipeEvent × Except Unit ResearchResult :=
  if !r.master_synthesis.isEmpty then refineLoop env 2 0 r ev
  else (ev, .ok r)

/-- Phases 4–5 of `execute_deep_research` (master synthesis onward),
entered only when at least one study produced a synthesis. -/
def deepPhases4to5 (env : DeepEnv) (query context : Str) (r : ResearchResult)
    (ev : List PipeEvent) : PipeRun :=
  -- Phase 4: master synthesis
  let ev := ev ++ [.progress (S "synthesis")]
  let r := { r with master_synthesis := env.masterText }
  -- Phase 4a
  let p4a := deepPhase4a env r ev
  -- Phase 4b: evaluation & refinement
  let step4b := deepPhase4b env p4a.1 p4a.2
  match step4b.2 with
  | .error _ => ⟨.exn, step4b.1⟩
  | .ok r => deepPhases4dOn env query context r step4b.1

/-- The study tasks of phase 2 (`enumerate(studies)`). -/
def runStudies (env : DeepEnv) : Nat → List Json → List (Except Unit StudyResult)
  | _, [] => []
  | i, s :: rest => runStudyTask env i s :: runStudies env (i + 1) rest

/-- `execute_deep_research` from `app/agents/deep_pipeline.py`. -/
def execute_deep_research (env : DeepEnv) (query context : Str)
    (max_studies : Nat) : PipeRun :=
  -- Phase 0: query analysis
  let r := { ResearchResult.init query with query_analysis := env.queryAnalysis }
  let ev : List PipeEvent := [.progress (S "analysis")]
  -- Phase 1: study planning
  let ev := ev ++ [.progress (S "planning")]
  let studies := planStudies env.planText query max_studies
  let r := { r with study_plan := studies }
  let ev := ev ++ [.progress (S "studies")]
  -- Phases 2–3: parallel iterative studies
  match liftList (runStudies env 0 studies) with
  | .error _ => ⟨.exn, ev⟩
  | .ok srs =>
    let r := { r with studies := srs }
    if (srs.filter (fun s => !s.synthesis.isEmpty)).isEmpty then ⟨.ok r, ev⟩
    else deepPhases4to5 env query context r ev

/-! ## Admission control in Phase 2 (deep_pipeline.py lines 169–223,
iterative_researcher.py lines 48–61)

`execute_deep_research` creates `sem = asyncio.Semaphore(MAX_CONCURRENT_STUDIES)`
and wraps each study task in `async with sem:`; a separate
`qa_sem = asyncio.Semaphore(MAX_CONCURRENT_QA)` gates Q&A cluster tasks
in Phase 5.  Inside a study, `run_iterative_study` builds one
researcher agent per question of the current round and runs them all
concurrently under a `ParallelAgent` — no semaphore is consulted there.

The model is a small-step interleaving machine over the task states of
one fan-out point: a task may start when fewer than `cap` tasks are
running, and a running task may finish.  A running study with `q`
questions has `q` researcher calls in flight. -/

inductive TaskState where
  | pending
  | running
  | done
deriving DecidableEq

def runningCount (l : List TaskState) : Nat := l.countP (· = .running)

/-- One scheduler step under a counting semaphore of capacity `cap`:
`async with sem:` admits a pending task only below the capacity
(otherwise it waits — there is no failure transition), and a running
task may finish, releasing its permit. -/
inductive SemStep (cap : Nat) : List TaskState → List TaskState → Prop
  | start (l1 l2 : List TaskState)
      (h : runningCount (l1 ++ .pending :: l2) < cap) :
      SemStep cap (l1 ++ .pending :: l2) (l1 ++ .running :: l2)
  | finish (l1 l2 : List TaskState) :
      SemStep cap (l1 ++ .running :: l2) (l1 ++ .done :: l2)

/-- Reachability of scheduler states. -/
def SemReach (cap : Nat) : List TaskState → List TaskState → Prop :=
  Relation.ReflTransGen (SemStep cap)

/-- Initial state: all `n` gathered tasks pending. -/
def semInit (n : Nat) : List TaskState := List.replicate n .pending

/-- Researcher calls in flight: each running study contributes one
concurrent researcher per question of its current round
(`ParallelAgent` fan-out, ungated). -/
def inFlightResearchers (qs : List Nat) (l : List TaskState) : Nat :=
  ((l.zip qs).filter (fun p => p.1 = .running)).foldl (fun a p => a + p.2) 0

/-! ## Markdown-fence junk around a JSON payload

The strings the fence-stripping regexes of `parse_json_response` are
meant to remove: any interleaving of whitespace, "```" and "```json". -/

inductive FenceJunk : Str → Prop where
  | nil : FenceJunk []
  | ws {c : Char} {s : Str} : pyWsChar c = true → FenceJunk s → FenceJunk (c :: s)
  | fence {s : Str} : FenceJunk s → FenceJunk ('`' :: '`' :: '`' :: s)
  | fenceJson {s : Str} :
      FenceJunk s → FenceJunk ('`' :: '`' :: '`' :: 'j' :: 's' :: 'o' :: 'n' :: s)


/-! # Helper lemmas -/

theorem containsSub_iff (hay needle : Str) :
    containsSub hay needle = true ↔ needle <:+: hay := by
  induction hay with
  | nil =>
    simp [containsSub, List.infix_nil, List.isEmpty_iff]
  | cons c t ih =>
    simp [containsSub, List.infix_cons_iff, List.isPrefixOf_iff_prefix, ih,
      Bool.or_eq_true]

theorem lookupLast_append (l1 l2 : List (Str × Json)) (k : Str) :
    lookupLast (l1 ++ l2) k =
      match lookupLast l2 k with
      | some v => some v
      | none => lookupLast l1 k := by
  induction l1 with
  | nil => simp [lookupLast]; cases lookupLast l2 k <;> rfl
  | cons kv rest ih =>
    show (match lookupLast (rest ++ l2) k with
          | some v => some v
          | none => if kv.1 = k then some kv.2 else none) =
        (match lookupLast l2 k with
         | some v => some v
         | none =>
           match lookupLast rest k with
           | some v => some v
           | none => if kv.1 = k then some kv.2 else none)
    rw [ih]
    cases lookupLast l2 k <;> cases lookupLast rest k <;> simp

theorem lookupLast_eq_none (kvs : List (Str × Json)) (k : Str)
    (h : ∀ kv ∈ kvs, kv.1 ≠ k) : lookupLast kvs k = none := by
  induction kvs with
  | nil => rfl
  | cons kv rest ih =>
    simp only [lookupLast, ih (fun x hx => h x (List.mem_cons_of_mem kv hx))]
    simp [h kv (List.mem_cons_self kv rest)]

theorem contains_false_forall (kvs : List (Str × Json)) (k : Str)
    (h : (kvs.map Prod.fst).contains k = false) : ∀ kv ∈ kvs, kv.1 ≠ k := by
  intro kv hkv
  simp only [List.contains_eq_any_beq, List.any_eq_false] at h
  have := h kv.1 (List.mem_map_of_mem Prod.fst hkv)
  exact Ne.symm (by simpa using this)

theorem map_replace_of_not_contains (kvs : List (Str × Json)) (k : Str) (v : Json)
    (h : ∀ kv ∈ kvs, kv.1 ≠ k) :
    kvs.map (fun kv => if kv.1 = k then (k, v) else kv) = kvs := by
  induction kvs with
  | nil => rfl
  | cons kv rest ih =>
    simp only [List.map_cons, if_neg (h kv (List.mem_cons_self kv rest)),
      ih (fun x hx => h x (List.mem_cons_of_mem kv hx))]

theorem lookupLast_map_replace (kvs : List (Str × Json)) (k : Str) (v : Json)
    (h : (kvs.map Prod.fst).contains k = true) :
    lookupLast (kvs.map (fun kv => if kv.1 = k then (k, v) else kv)) k = some v := by
  induction kvs with
  | nil => simp at h
  | cons kv rest ih =>
    by_cases hr : (rest.map Prod.fst).contains k = true
    · simp only [List.map_cons, lookupLast, ih hr]
    · have hall : ∀ x ∈ rest, x.1 ≠ k :=
        contains_false_forall rest k ((Bool.not_eq_true _).mp hr)
      have hkv : kv.1 = k := by
        simp only [List.map_cons, List.contains_cons, Bool.or_eq_true] at h
        rcases h with h1 | h2
        · exact (beq_iff_eq.mp h1).symm
        · exact absurd h2 hr
      simp only [List.map_cons, lookupLast, if_pos hkv,
        map_replace_of_not_contains rest k v hall, lookupLast_eq_none rest k hall]
      simp

theorem setKey_get_same (kvs : List (Str × Json)) (k : Str) (v : Json) :
    (Json.setKey (.obj kvs) k v).get? k = some v := by
  unfold Json.setKey
  by_cases h : (kvs.map Prod.fst).contains k = true
  · simp only [h, if_pos, Json.get?]
    exact lookupLast_map_replace kvs k v h
  · simp only [h, Bool.false_eq_true, if_false, Json.get?, lookupLast_append]
    simp [lookupLast]

theorem lookupLast_map_replace_other (kvs : List (Str × Json)) (k k' : Str) (v : Json)
    (hne : k' ≠ k) :
    lookupLast (kvs.map (fun kv => if kv.1 = k then (k, v) else kv)) k' =
      lookupLast kvs k' := by
  induction kvs with
  | nil => rfl
  | cons kv rest ih =>
    simp only [List.map_cons, lookupLast, ih]
    by_cases hk : kv.1 = k
    · simp [hk, Ne.symm hne]
    · simp [hk]

theorem setKey_get_other (kvs : List (Str × Json)) (k k' : Str) (v : Json)
    (hne : k' ≠ k) :
    (Json.setKey (.obj kvs) k v).get? k' = (Json.obj kvs).get? k' := by
  unfold Json.setKey
  by_cases h : (kvs.map Prod.fst).contains k = true
  · simp only [h, if_pos, Json.get?]
    exact lookupLast_map_replace_other kvs k k' v hne
  · simp only [h, Bool.false_eq_true, if_false, Json.get?, lookupLast_append]
    simp [lookupLast, Ne.symm hne]

theorem getD_eq_get? (j : Json) (k : Str) (d : Json) :
    j.getD k d = (j.get? k).getD d := by
  cases j <;> rfl

theorem pyGetAttrGet_ok (g : Json) (k : Str) (p : Option Json)
    (h : pyGetAttrGet g k = .ok p) : g.get? k = p := by
  cases g <;> simp_all [pyGetAttrGet, Json.get?]

theorem anyHighGap_iff (xs : List Json) (hg : Bool) (h : anyHighGap xs = .ok hg) :
    (hg = true ↔ ∃ g ∈ xs, pyEqStr (g.get? (S "priority")) (S "high") = true) := by
  induction xs generalizing hg with
  | nil =>
    simp only [anyHighGap, Except.ok.injEq] at h
    subst h
    simp
  | cons g rest ih =>
    simp only [anyHighGap] at h
    cases hp : pyGetAttrGet g (S "priority") with
    | error e => rw [hp] at h; simp [Bind.bind, Except.bind] at h
    | ok p =>
      rw [hp] at h
      simp only [Bind.bind, Except.bind] at h
      by_cases hq : pyEqStr p (S "high") = true
      · rw [if_pos hq] at h
        injection h with h
        subst h
        simp only [true_iff]
        exact ⟨g, List.mem_cons_self g rest, by rw [pyGetAttrGet_ok g _ p hp]; exact hq⟩
      · rw [if_neg hq] at h
        rw [ih hg h]
        constructor
        · rintro ⟨x, hx, hxe⟩
          exact ⟨x, List.mem_cons_of_mem g hx, hxe⟩
        · rintro ⟨x, hx, hxe⟩
          rcases List.mem_cons.mp hx with rfl | hx'
          · rw [pyGetAttrGet_ok x _ p hp] at hxe
            exact absurd hxe hq
          · exact ⟨x, hx', hxe⟩

/-! # Claims -/

/-- C9 (counterexample).  The claim says keyword classification is
longest-match-wins and that "quick" yields QUICK.  In the code, the
input "quick" matches no keyword (`QUICK_KEYWORDS` holds "quick
research"/"quick look", not the bare word) and classifies STANDARD;
and on "quick research deep dive" the longest matching keyword is
"quick research" (14 characters vs. 9 for "deep dive"), yet the DEEP
list is scanned first, so the result is DEEP, not QUICK. -/
theorem C9_counterexample :
    detect_depth (S "quick") = ResearchDepth.standard ∧
    detect_depth (S "quick research deep dive") = ResearchDepth.deep ∧
    (S "quick research") <:+: (S "quick research deep dive").map Char.toLower ∧
    (S "deep dive").length < (S "quick research").length := by
  refine ⟨by rfl, by rfl, ?_, by decide⟩
  exact ⟨S "", S " deep dive", by rfl⟩

/-- C9 (amended).  `detect_depth` classifies by deterministic
substring matching with DEEP-priority first-match (no model call, no
longest-match rule): any DEEP keyword present yields DEEP; otherwise
any QUICK keyword present yields QUICK; otherwise STANDARD.  "deep
dive" and "comprehensive" are DEEP keywords; "quick research" and
"brief" (not the bare word "quick") are QUICK keywords. -/
theorem C9_detect_depth_keyword_match :
    (∀ t : Str, (∃ kw ∈ DEEP_KEYWORDS, kw <:+: t.map Char.toLower) →
        detect_depth t = .deep) ∧
    (∀ t : Str, (∀ kw ∈ DEEP_KEYWORDS, ¬ kw <:+: t.map Char.toLower) →
        (∃ kw ∈ QUICK_KEYWORDS, kw <:+: t.map Char.toLower) →
        detect_depth t = .quick) ∧
    (∀ t : Str, (∀ kw ∈ DEEP_KEYWORDS ++ QUICK_KEYWORDS, ¬ kw <:+: t.map Char.toLower) →
        detect_depth t = .standard) ∧
    (S "deep dive") ∈ DEEP_KEYWORDS ∧ (S "comprehensive") ∈ DEEP_KEYWORDS ∧
    (S "quick research") ∈ QUICK_KEYWORDS ∧ (S "brief") ∈ QUICK_KEYWORDS ∧
    (S "quick") ∉ QUICK_KEYWORDS := by
  refine ⟨?_, ?_, ?_, by decide, by decide, by decide, by decide, by decide⟩
  · intro t ⟨kw, hmem, hinf⟩
    have : DEEP_KEYWORDS.any (fun kw => containsSub (t.map Char.toLower) kw) = true :=
      List.any_eq_true.mpr ⟨kw, hmem, (containsSub_iff _ _).mpr hinf⟩
    simp [detect_depth, this]
  · intro t hdeep ⟨kw, hmem, hinf⟩
    have hd : DEEP_KEYWORDS.any (fun kw => containsSub (t.map Char.toLower) kw) = false := by
      rw [List.any_eq_false]
      intro x hx
      have hcc : ¬ containsSub (t.map Char.toLower) x = true :=
        fun hc => hdeep x hx ((containsSub_iff _ _).mp hc)
      simpa using hcc
    have hq : QUICK_KEYWORDS.any (fun kw => containsSub (t.map Char.toLower) kw) = true :=
      List.any_eq_true.mpr ⟨kw, hmem, (containsSub_iff _ _).mpr hinf⟩
    simp [detect_depth, hd, hq]
  · intro t hnone
    have hd : DEEP_KEYWORDS.any (fun kw => containsSub (t.map Char.toLower) kw) = false := by
      rw [List.any_eq_false]
      intro x hx
      have hcc : ¬ containsSub (t.map Char.toLower) x = true :=
        fun hc => hnone x (List.mem_append_left _ hx) ((containsSub_iff _ _).mp hc)
      simpa using hcc
    have hq : QUICK_KEYWORDS.any (fun kw => containsSub (t.map Char.toLower) kw) = false := by
      rw [List.any_eq_false]
      intro x hx
      have hcc : ¬ containsSub (t.map Char.toLower) x = true :=
        fun hc => hnone x (List.mem_append_right _ hx) ((containsSub_iff _ _).mp hc)
      simpa using hcc
    simp [detect_depth, hd, hq]

/-- C9 witness: the amended theorem applied at concrete inputs. -/
theorem C9_witness :
    detect_depth (S "please do a deep dive into X") = .deep ∧
    detect_depth (S "give me a brief answer") = .quick ∧
    detect_depth (S "what is the capital of France") = .standard := by
  refine ⟨?_, ?_, ?_⟩
  · exact C9_detect_depth_keyword_match.1 _ ⟨S "deep dive", by decide, by decide⟩
  · exact C9_detect_depth_keyword_match.2.1 _ (by decide) ⟨S "brief", by decide, by decide⟩
  · exact C9_detect_depth_keyword_match.2.2.1 _ (by decide)

/-- C10 (confirmed).  `evaluate_synthesis` overrides
`refinement_needed` with `overall_score < 8.0 or any gap has priority
"high"` — on every successfully returned dict the stored flag is a
boolean equal to that formula over the returned dict's own fields,
regardless of what the model produced — and an unparseable evaluator
response yields the default dict with `overall_score` 5.0 and
`refinement_needed` true. -/
theorem C10_evaluate_synthesis_refinement :
    (∀ text d gs, evaluate_synthesis text = .ok d →
        pyIterElems (d.getD (S "gaps") (.arr [])) = .ok gs →
        ∃ b : Bool, d.get? (S "refinement_needed") = some (.bool b) ∧
          (b = true ↔
            (pyLtNum (d.getD (S "overall_score") (.num ⟨5, 0⟩)) REFINEMENT_THRESHOLD = .ok true ∨
             ∃ g ∈ gs, pyEqStr (g.get? (S "priority")) (S "high") = true))) ∧
    (∀ text, (∀ kvs, parse_json_response text ≠ some (.obj kvs)) →
        evaluate_synthesis text = .ok defaultEvaluation) ∧
    defaultEvaluation.get? (S "overall_score") = some (.num ⟨5, 0⟩) ∧
    defaultEvaluation.get? (S "refinement_needed") = some (.bool true) := by
  refine ⟨?_, ?_, by rfl, by rfl⟩
  · intro text d gs hok hiter
    cases hp : parse_json_response text with
    | none =>
      rw [evaluate_synthesis, hp] at hok
      injection hok with hok
      subst hok
      refine ⟨true, by rfl, ?_⟩
      simp only [true_iff]
      exact Or.inl (by rfl)
    | some j =>
      cases j with
      | obj kvs =>
        rw [evaluate_synthesis, hp] at hok
        simp only [Bind.bind] at hok
        cases hge : pyIterElems ((Json.obj kvs).getD (S "gaps") (.arr [])) with
        | error e => rw [hge] at hok; simp [Except.bind] at hok
        | ok ge =>
          rw [hge] at hok
          simp only [Except.bind] at hok
          cases hhh : anyHighGap ge with
          | error e => rw [hhh] at hok; simp [Except.bind] at hok
          | ok hh =>
            rw [hhh] at hok
            simp only [Except.bind] at hok
            cases hlt : pyLtNum ((Json.obj kvs).getD (S "overall_score") (.num ⟨5, 0⟩))
                REFINEMENT_THRESHOLD with
            | error e => rw [hlt] at hok; simp [Except.bind] at hok
            | ok ltv =>
              rw [hlt] at hok
              simp only [Except.bind, Except.ok.injEq] at hok
              subst hok
              refine ⟨ltv || hh, setKey_get_same kvs _ _, ?_⟩
              have hother : ∀ k' : Str, k' ≠ S "refinement_needed" →
                  ((Json.obj kvs).setKey (S "refinement_needed") (.bool (ltv || hh))).getD k'
                      (.num ⟨5, 0⟩) = (Json.obj kvs).getD k' (.num ⟨5, 0⟩) := by
                intro k' hk
                rw [getD_eq_get?, setKey_get_other kvs _ k' _ hk, getD_eq_get?]
              have hoth2 : ∀ k' : Str, k' ≠ S "refinement_needed" →
                  ((Json.obj kvs).setKey (S "refinement_needed") (.bool (ltv || hh))).getD k'
                      (.arr []) = (Json.obj kvs).getD k' (.arr []) := by
                intro k' hk
                rw [getD_eq_get?, setKey_get_other kvs _ k' _ hk, getD_eq_get?]
              rw [hother (S "overall_score") (by decide), hlt]
              rw [hoth2 (S "gaps") (by decide), hge] at hiter
              injection hiter with hiter
              subst hiter
              rw [Bool.or_eq_true, ← anyHighGap_iff ge hh hhh]
              constructor
              · rintro (h1 | h2)
                · exact Or.inl (by rw [h1])
                · exact Or.inr h2
              · rintro (h1 | h2)
                · exact Or.inl (Except.ok.inj h1)
                · exact Or.inr h2
      | null =>
        rw [evaluate_synthesis, hp] at hok
        injection hok with hok
        subst hok
        exact ⟨true, by rfl, by simp only [true_iff]; exact Or.inl (by rfl)⟩
      | bool b =>
        rw [evaluate_synthesis, hp] at hok
        injection hok with hok
        subst hok
        exact ⟨true, by rfl, by simp only [true_iff]; exact Or.inl (by rfl)⟩
      | num q =>
        rw [evaluate_synthesis, hp] at hok
        injection hok with hok
        subst hok
        exact ⟨true, by rfl, by simp only [true_iff]; exact Or.inl (by rfl)⟩
      | str s =>
        rw [evaluate_synthesis, hp] at hok
        injection hok with hok
        subst hok
        exact ⟨true, by rfl, by simp only [true_iff]; exact Or.inl (by rfl)⟩
      | arr xs =>
        rw [evaluate_synthesis, hp] at hok
        injection hok with hok
        subst hok
        exact ⟨true, by rfl, by simp only [true_iff]; exact Or.inl (by rfl)⟩
  · intro text hno
    cases hp : parse_json_response text with
    | none => rw [evaluate_synthesis, hp]
    | some j =>
      cases j with
      | obj kvs => exact absurd hp (hno kvs)
      | null => rw [evaluate_synthesis, hp]
      | bool b => rw [evaluate_synthesis, hp]
      | num q => rw [evaluate_synthesis, hp]
      | str s => rw [evaluate_synthesis, hp]
      | arr xs => rw [evaluate_synthesis, hp]

/-- C10 witness: an evaluator response claiming
`refinement_needed: false` with score 7.2 is overridden to `true`. -/
theorem C10_witness :
    ∃ d, evaluate_synthesis
        (S "\x7b\"overall_score\": 7.2, \"gaps\": [], \"refinement_needed\": false\x7d") = .ok d ∧
      ∃ b, d.get? (S "refinement_needed") = some (.bool b) ∧ b = true := by
  obtain ⟨b, hb, hiff⟩ := C10_evaluate_synthesis_refinement.1
    (S "\x7b\"overall_score\": 7.2, \"gaps\": [], \"refinement_needed\": false\x7d") _ [] rfl (by rfl)
  exact ⟨_, rfl, b, hb, hiff.mpr (Or.inl (by rfl))⟩

theorem runRoundsGo_length_le (env : StudyEnv) (i : Nat) :
    ∀ (rem r : Nat) (q : Json) (acc res : List (List (Str × Str))),
      runRoundsGo env i r rem q acc = .ok res → res.length ≤ acc.length + rem := by
  intro rem
  induction rem with
  | zero =>
    intro r q acc res h
    injection h with h
    subst h
    simp
  | succ rem ih =>
    intro r q acc res h
    rw [runRoundsGo] at h
    simp only [Bind.bind] at h
    cases hn : pyLen q with
    | error e => rw [hn] at h; simp [Except.bind] at h
    | ok n =>
      rw [hn] at h
      simp only [Except.bind] at h
      by_cases hz : rem = 0
      · rw [if_pos hz] at h
        injection h with h
        subst h
        simp [hz]
      · rw [if_neg hz] at h
        cases hg : gapDecision (env.gapText r) with
        | error e => rw [hg] at h; simp [Except.bind] at h
        | ok dec =>
          rw [hg] at h
          simp only [Except.bind] at h
          cases dec with
          | none =>
            injection h with h
            subst h
            simp only [List.length_append, List.length_cons, List.length_nil]
            omega
          | some qs =>
            have := ih (r + 1) qs _ res h
            simp only [List.length_append, List.length_cons, List.length_nil] at this
            omega

/-- C6 (confirmed).  `run_iterative_study` with a configured
maximum of N rounds returns a `StudyResult` whose `rounds` list has
length at most N, whatever the researcher and gap-analyzer oracles
return — in particular even if the gap analyzer always answers
`escalate: false` with non-empty gap questions. -/
theorem C6_rounds_bounded (env : StudyEnv) (study : Json) (i N : Nat)
    (sr : StudyResult) (h : run_iterative_study env study i N = .ok sr) :
    sr.rounds.length ≤ N := by
  cases study with
  | obj kvs =>
    rw [run_iterative_study] at h
    simp only [Bind.bind] at h
    cases hr : runRoundsGo env i 0 N
        (if !(Json.getD (.obj kvs) (S "questions") (.arr [])).truthy then
          Json.arr [Json.getD (.obj kvs) (S "title") (.str (S "Study " ++ natStr i))]
        else Json.getD (.obj kvs) (S "questions") (.arr [])) [] with
    | error e => rw [hr] at h; simp [Except.bind] at h
    | ok rds =>
      rw [hr] at h
      simp only [Except.bind, Except.ok.injEq] at h
      subst h
      simpa using runRoundsGo_length_le env i N 0 _ [] rds hr
  | null => simp [run_iterative_study] at h
  | bool b => simp [run_iterative_study] at h
  | num q => simp [run_iterative_study] at h
  | str s => simp [run_iterative_study] at h
  | arr xs => simp [run_iterative_study] at h

/-- C6 witness: a study whose gap analyzer always demands another
round (`escalate: false`, one gap question) still runs at most 3
rounds. -/
theorem C6_witness :
    ∃ sr, run_iterative_study
        ⟨fun _ _ => some (S "finding"), fun _ => S "\x7b\"escalate\": false, \"gaps\": [\"g1\"]\x7d",
         S "synthesis"⟩
        (.obj [(S "title", .str (S "T"))]) 0 3 = .ok sr ∧
      sr.rounds.length ≤ 3 := by
  refine ⟨_, rfl, ?_⟩
  exact C6_rounds_bounded
    ⟨fun _ _ => some (S "finding"), fun _ => S "\x7b\"escalate\": false, \"gaps\": [\"g1\"]\x7d",
     S "synthesis"⟩
    (.obj [(S "title", .str (S "T"))]) 0 3 _ rfl

/-- C7 (confirmed).  Malformed gap-analyzer output (anything that
does not parse to a JSON object) makes the round-loop decision equal to
the decision on the coerced value `{escalate: true, gaps: []}` — stop;
a truthy `escalate` always stops; an empty gap list always stops; and
under malformed output the round loop behaves exactly as if the
current round were the last allowed one. -/
theorem C7_gap_failsafe :
    (∀ raw : Str, (∀ kvs, parse_json_response raw ≠ some (.obj kvs)) →
        gapDecision raw = .ok none) ∧
    gapContinue (some (Json.obj [(S "escalate", .bool true), (S "gaps", .arr [])])) =
      .ok none ∧
    (∀ d : Json, d.isObj = true → (d.getD (S "escalate") (.bool true)).truthy = true →
        gapContinue (some d) = .ok none) ∧
    (∀ d : Json, d.isObj = true → d.getD (S "gaps") (.arr []) = .arr [] →
        gapContinue (some d) = .ok none) ∧
    (∀ (env : StudyEnv) (i r rem : Nat) (q : Json) (acc : List (List (Str × Str))),
        (∀ kvs, parse_json_response (env.gapText r) ≠ some (.obj kvs)) →
        runRoundsGo env i r (rem + 1) q acc = runRoundsGo env i r 1 q acc) := by
  have hdec : ∀ raw : Str, (∀ kvs, parse_json_response raw ≠ some (.obj kvs)) →
      gapDecision raw = .ok none := by
    intro raw hno
    rw [gapDecision]
    cases hp : parse_json_response raw with
    | none => rfl
    | some j =>
      cases j with
      | obj kvs => exact absurd hp (hno kvs)
      | null => rfl
      | bool b => rfl
      | num q => rfl
      | str s => rfl
      | arr xs => rfl
  refine ⟨hdec, by rfl, ?_, ?_, ?_⟩
  · intro d hobj hesc
    cases d with
    | obj kvs => simp [gapContinue, hesc]
    | null => simp [Json.isObj] at hobj
    | bool b => simp [Json.isObj] at hobj
    | num q => simp [Json.isObj] at hobj
    | str s => simp [Json.isObj] at hobj
    | arr xs => simp [Json.isObj] at hobj
  · intro d hobj hgaps
    cases d with
    | obj kvs =>
      rw [gapContinue]
      by_cases hesc : (Json.getD (.obj kvs) (S "escalate") (.bool true)).truthy = true
      · simp [hesc]
      · simp only [Bool.not_eq_true] at hesc
        simp [hesc, hgaps, Json.truthy]
    | null => simp [Json.isObj] at hobj
    | bool b => simp [Json.isObj] at hobj
    | num q => simp [Json.isObj] at hobj
    | str s => simp [Json.isObj] at hobj
    | arr xs => simp [Json.isObj] at hobj
  · intro env i r rem q acc hno
    rw [runRoundsGo, runRoundsGo]
    simp only [Bind.bind]
    cases hn : pyLen q with
    | error e => rfl
    | ok n =>
      simp only [Except.bind]
      by_cases hz : rem = 0
      · subst hz; rfl
      · rw [if_neg hz, hdec (env.gapText r) hno]
        simp [Except.bind]

/-- C7 witness: unparseable gap output stops a 2-round loop after
the current round, exactly like a final round. -/
theorem C7_witness :
    gapDecision (S "no valid output") = .ok none ∧
    runRoundsGo ⟨fun _ _ => some (S "f"), fun _ => S "no valid output", S "syn"⟩
        0 0 2 (Json.arr [.str (S "q")]) [] =
      runRoundsGo ⟨fun _ _ => some (S "f"), fun _ => S "no valid output", S "syn"⟩
        0 0 1 (Json.arr [.str (S "q")]) [] := by
  constructor
  · refine C7_gap_failsafe.1 _ ?_
    intro kvs h
    rw [(by rfl : parse_json_response (S "no valid output") = none)] at h
    cases h
  · refine C7_gap_failsafe.2.2.2.2 _ 0 0 1 _ _ ?_
    intro kvs h
    rw [(by rfl : parse_json_response (S "no valid output") = none)] at h
    cases h

theorem refineLoop_events (env : DeepEnv) :
    ∀ (n idx : Nat) (r : ResearchResult) (ev : List PipeEvent),
      ∃ ext, (refineLoop env n idx r ev).1 = ev ++ ext ∧
        ext.filter PipeEvent.isCheckpointSave = [] := by
  intro n
  induction n with
  | zero =>
    intro idx r ev
    exact ⟨[], by simp [refineLoop], rfl⟩
  | succ rem ih =>
    intro idx r ev
    rw [refineLoop]
    cases evaluate_synthesis (env.evalText idx) with
    | error e => exact ⟨[.progress (S "evaluation")], rfl, rfl⟩
    | ok evaluation =>
      dsimp only
      split
      · exact ⟨[.progress (S "evaluation")], rfl, rfl⟩
      · split
        · exact ⟨[.progress (S "evaluation")], rfl, rfl⟩
        · split
          · exact ⟨[.progress (S "evaluation")], rfl, rfl⟩
          · split
            · exact ⟨[.progress (S "evaluation")], rfl, rfl⟩
            · split
              · exact ⟨[.progress (S "evaluation")], rfl, rfl⟩
              · split
                · exact ⟨[.progress (S "evaluation"), .progress (S "refinement")],
                    by simp, rfl⟩
                · obtain ⟨ext, hext, hc⟩ := ih (idx + 1) _
                    (ev ++ [.progress (S "evaluation")] ++ [.progress (S "refinement")])
                  refine ⟨[.progress (S "evaluation"), .progress (S "refinement")] ++ ext, ?_, ?_⟩
                  · rw [hext]; simp
                  · simp [List.filter_append, hc, PipeEvent.isCheckpointSave]

theorem deepPhase4a_events (env : DeepEnv) (r : ResearchResult) (ev : List PipeEvent) :
    ∃ ext, (deepPhase4a env r ev).2 = ev ++ ext ∧
      ext.filter PipeEvent.isCheckpointSave = [] := by
  rw [deepPhase4a]
  split
  · split
    · exact ⟨[.progress (S "claim_validation")], rfl, rfl⟩
    · exact ⟨[.progress (S "claim_validation")], rfl, rfl⟩
  · exact ⟨[], by simp, rfl⟩

theorem deepPhase4d_events (env : DeepEnv) (lowScore : Bool) (r : ResearchResult)
    (ev : List PipeEvent) :
    ∃ ext, (deepPhase4d env lowScore r ev).2 = ev ++ ext ∧
      ext.filter PipeEvent.isCheckpointSave = [] := by
  rw [deepPhase4d]
  dsimp only
  split
  · split
    · split
      · split
        · exact ⟨[.progress (S "verification"), .progress (S "refinement")], by simp, rfl⟩
        · exact ⟨[.progress (S "verification"), .progress (S "refinement")], by simp, rfl⟩
      · exact ⟨[.progress (S "verification")], by simp, rfl⟩
    · split
      · split
        · exact ⟨[.progress (S "verification"), .progress (S "refinement")], by simp, rfl⟩
        · exact ⟨[.progress (S "verification"), .progress (S "refinement")], by simp, rfl⟩
      · exact ⟨[.progress (S "verification")], by simp, rfl⟩
  · exact ⟨[], by simp, rfl⟩

theorem deepPhase4c_events (env : DeepEnv) (r : ResearchResult) (ev : List PipeEvent) :
    ∃ ext, (deepPhase4c env r ev).2 = ev ++ ext ∧
      ext.filter PipeEvent.isCheckpointSave = [] := by
  rw [deepPhase4c]
  split
  · split
    · exact ⟨[.progress (S "strategic_analysis")], rfl, rfl⟩
    · exact ⟨[.progress (S "strategic_analysis")], rfl, rfl⟩
  · exact ⟨[], by simp, rfl⟩

theorem deepPhase5_events (env : DeepEnv) (query : Str) (r : ResearchResult)
    (ev : List PipeEvent) :
    ∃ ext, (deepPhase5 env query r ev).events = ev ++ ext ∧
      ext.filter PipeEvent.isCheckpointSave = [] := by
  rw [deepPhase5]
  split
  · exact ⟨[], by simp, rfl⟩
  · dsimp only
    repeat' split
    all_goals exact ⟨[.progress (S "qa")], rfl, rfl⟩

theorem events_ext_trans {ev : List PipeEvent} {mid fin : List PipeEvent}
    (h1 : ∃ ext, mid = ev ++ ext ∧ ext.filter PipeEvent.isCheckpointSave = [])
    (h2 : ∃ ext, fin = mid ++ ext ∧ ext.filter PipeEvent.isCheckpointSave = []) :
    ∃ ext, fin = ev ++ ext ∧ ext.filter PipeEvent.isCheckpointSave = [] := by
  obtain ⟨e1, he1, hc1⟩ := h1
  obtain ⟨e2, he2, hc2⟩ := h2
  exact ⟨e1 ++ e2, by rw [he2, he1, List.append_assoc],
    by rw [List.filter_append, hc1, hc2, List.append_nil]⟩

theorem deepPhases4dOn_events (env : DeepEnv) (query context : Str)
    (r : ResearchResult) (ev : List PipeEvent) :
    ∃ ext, (deepPhases4dOn env query context r ev).events = ev ++ ext ∧
      ext.filter PipeEvent.isCheckpointSave = [] := by
  rw [deepPhases4dOn]
  split
  · exact ⟨[], by simp, rfl⟩
  · split
    · exact ⟨[], by simp, rfl⟩
    · exact events_ext_trans (deepPhase4d_events env _ r ev)
        (events_ext_trans (deepPhase4c_events env _ _) (deepPhase5_events env query _ _))

theorem deepPhase4b_events (env : DeepEnv) (r : ResearchResult) (ev : List PipeEvent) :
    ∃ ext, (deepPhase4b env r ev).1 = ev ++ ext ∧
      ext.filter PipeEvent.isCheckpointSave = [] := by
  rw [deepPhase4b]
  split
  · exact refineLoop_events env 2 0 r ev
  · exact ⟨[], by simp, rfl⟩

theorem deepPhases4to5_events (env : DeepEnv) (query context : Str)
    (r : ResearchResult) (ev : List PipeEvent) :
    ∃ ext, (deepPhases4to5 env query context r ev).events = ev ++ ext ∧
      ext.filter PipeEvent.isCheckpointSave = [] := by
  rw [deepPhases4to5]
  have hsyn : ∃ ext, ev ++ [PipeEvent.progress (S "synthesis")] = ev ++ ext ∧
      ext.filter PipeEvent.isCheckpointSave = [] := ⟨_, rfl, rfl⟩
  have h4a := deepPhase4a_events env
    { r with master_synthesis := env.masterText } (ev ++ [.progress (S "synthesis")])
  have hbase := events_ext_trans hsyn h4a
  have h4b := deepPhase4b_events env
    (deepPhase4a env { r with master_synthesis := env.masterText }
      (ev ++ [.progress (S "synthesis")])).1
    (deepPhase4a env { r with master_synthesis := env.masterText }
      (ev ++ [.progress (S "synthesis")])).2
  have hb2 := events_ext_trans hbase h4b
  split
  · exact hb2
  · next r' heq =>
    exact events_ext_trans hb2 (deepPhases4dOn_events env query context r' _)

theorem execute_events (env : DeepEnv) (query context : Str) (maxs : Nat) :
    ∃ ext, (execute_deep_research env query context maxs).events =
      [PipeEvent.progress (S "analysis"), .progress (S "planning"),
       .progress (S "studies")] ++ ext ∧
      ext.filter PipeEvent.isCheckpointSave = [] := by
  rw [execute_deep_research]
  dsimp only
  split
  · exact ⟨[], by simp, rfl⟩
  · split
    · exact ⟨[], by simp, rfl⟩
    · obtain ⟨ext, he, hc⟩ := deepPhases4to5_events env query context _ _
      exact ⟨ext, by rw [he]; simp, hc⟩

/-- C1 (code_bug).  The spec requires a checkpoint to be persisted
after every completed phase, and resume to re-enter at the next phase.
The code never does this: for every oracle environment and input, the
effect trace of `execute_deep_research` contains no checkpoint-save —
`gcs_client.save_checkpoint` has no call site anywhere in the
repository, and the resume entry point `resume_research_for_ui`
imported by `app/routes/ui_api.py` is not defined in
`app/services/research_orchestrator.py`. -/
theorem C1_no_checkpoint_persisted (env : DeepEnv) (query context : Str) (maxs : Nat) :
    (execute_deep_research env query context maxs).events.filter
      PipeEvent.isCheckpointSave = [] := by
  obtain ⟨ext, he, hc⟩ := execute_events env query context maxs
  rw [he, List.filter_append, hc]
  rfl

/-- C8 (confirmed).  When the planner output is unparseable, or
parses to anything other than a non-empty list, the study plan falls
back to exactly one study whose `title` is the original query string
verbatim; and the pipeline always proceeds past planning into study
execution (the post-planning progress event is emitted on every run). -/
theorem C8_planner_fallback :
    (∀ (planText query : Str) (maxs : Nat),
        (∀ xs, parse_json_response planText = some (.arr xs) → xs = []) →
        planStudies planText query maxs = [fallbackStudy query]) ∧
    (∀ query : Str, (fallbackStudy query).getD (S "title") .null = .str query) ∧
    (∀ (env : DeepEnv) (query context : Str) (maxs : Nat),
        PipeEvent.progress (S "studies") ∈
          (execute_deep_research env query context maxs).events) := by
  refine ⟨?_, ?_, ?_⟩
  · intro planText query maxs hbad
    rw [planStudies]
    have hfb : (match parse_json_response planText with
        | some (.arr xs) => if xs.isEmpty then [fallbackStudy query] else xs
        | _ => [fallbackStudy query]) = [fallbackStudy query] := by
      cases hp : parse_json_response planText with
      | none => rfl
      | some j =>
        cases j with
        | arr xs =>
          have := hbad xs hp
          subst this
          rfl
        | null => rfl
        | bool b => rfl
        | num q => rfl
        | str s => rfl
        | obj kvs => rfl
    rw [hfb]
    cases maxs with
    | zero => rfl
    | succ m => simp
  · intro query
    rfl
  · intro env query context maxs
    obtain ⟨ext, he, _⟩ := execute_events env query context maxs
    rw [he]
    simp

/-- C8 witness. -/
theorem C8_witness :
    planStudies (S "utter garbage, no JSON anywhere") (S "solar recycling") 0 =
      [fallbackStudy (S "solar recycling")] := by
  refine C8_planner_fallback.1 _ _ 0 ?_
  intro xs h
  rw [(by rfl : parse_json_response (S "utter garbage, no JSON anywhere") = none)] at h
  cases h

theorem runStudies_all_empty (env : DeepEnv)
    (hfail : ∀ j s sr, env.studyRun j s = .ok sr → sr.synthesis = []) :
    ∀ (studies : List Json) (i : Nat),
      (∀ s ∈ studies, s.isObj = true) →
      ∃ srs, liftList (runStudies env i studies) = .ok srs ∧
        srs.filter (fun s => !s.synthesis.isEmpty) = [] := by
  intro studies
  induction studies with
  | nil => exact fun i _ => ⟨[], rfl, rfl⟩
  | cons s rest ih =>
    intro i hobj
    obtain ⟨srs, hl, hf⟩ := ih (i + 1) (fun x hx => hobj x (List.mem_cons_of_mem s hx))
    have hsobj := hobj s (List.mem_cons_self s rest)
    cases s with
    | obj kvs =>
      cases hrun : env.studyRun i (.obj kvs) with
      | ok sr =>
        have hemp := hfail i (.obj kvs) sr hrun
        have ht : runStudyTask env i (.obj kvs) = .ok sr := by
          simp only [runStudyTask, hrun]
        refine ⟨sr :: srs, ?_, ?_⟩
        · simp only [runStudies]
          rw [ht]
          simp only [liftList]
          rw [hl]
          rfl
        · rw [List.filter_cons, hemp]
          simpa using hf
      | error e =>
        have ht : runStudyTask env i (.obj kvs) =
            .ok ⟨(Json.obj kvs).getD (S "title") (.str (S "Study " ++ natStr i)),
              (Json.obj kvs).getD (S "angle") (.str []), .arr [], [], []⟩ := by
          simp only [runStudyTask, hrun]
        refine ⟨⟨(Json.obj kvs).getD (S "title") (.str (S "Study " ++ natStr i)),
            (Json.obj kvs).getD (S "angle") (.str []), .arr [], [], []⟩ :: srs, ?_, ?_⟩
        · simp only [runStudies]
          rw [ht]
          simp only [liftList]
          rw [hl]
          rfl
        · rw [List.filter_cons]
          simpa using hf
    | null => simp [Json.isObj] at hsobj
    | bool b => simp [Json.isObj] at hsobj
    | num q => simp [Json.isObj] at hsobj
    | str st => simp [Json.isObj] at hsobj
    | arr xs => simp [Json.isObj] at hsobj

/-- C3 (confirmed).  If every study outcome carries an empty
synthesis (all studies failed), `execute_deep_research` returns
normally: the job has empty `master_synthesis`, and no later phase runs
— claim validation, evaluation/refinement, verification, strategic
analysis and Q&A are all untouched, and the effect trace stops at the
study phase. -/
theorem C3_no_synthesis_early_return (env : DeepEnv) (query context : Str) (maxs : Nat)
    (hplan : ∀ s ∈ planStudies env.planText query maxs, s.isObj = true)
    (hfail : ∀ j s sr, env.studyRun j s = .ok sr → sr.synthesis = []) :
    ∃ r, (execute_deep_research env query context maxs).outcome = .ok r ∧
      r.master_synthesis = [] ∧ r.strategic_analysis = [] ∧
      r.qa_clusters = [] ∧ r.qa_summary = [] ∧ r.refinement_rounds = 0 ∧
      r.claim_validation = .obj [] ∧ r.synthesis_score = .num ⟨0, 0⟩ ∧
      (execute_deep_research env query context maxs).events =
        [.progress (S "analysis"), .progress (S "planning"), .progress (S "studies")] := by
  obtain ⟨srs, hl, hf⟩ :=
    runStudies_all_empty env hfail (planStudies env.planText query maxs) 0 hplan
  rw [execute_deep_research]
  dsimp only
  rw [hl]
  dsimp only
  rw [hf]
  refine ⟨_, rfl, rfl, rfl, rfl, rfl, rfl, rfl, rfl, rfl⟩

/-- C3 witness: unparseable plan (fallback study), every study
task raising — the pipeline returns a job with no master synthesis and
no later phase is attempted. -/
theorem C3_witness :
    ∃ r, (execute_deep_research
        ⟨.obj [], S "oops", fun _ _ => .error (), S "m", .error (), fun _ => S "",
         fun _ _ => .error (), fun _ => [], [], [], [], .error (), [],
         fun _ _ => .error ()⟩
        (S "q") (S "") 0).outcome = .ok r ∧
      r.master_synthesis = [] ∧ r.strategic_analysis = [] ∧
      r.qa_clusters = [] ∧ r.qa_summary = [] ∧ r.refinement_rounds = 0 ∧
      r.claim_validation = .obj [] ∧ r.synthesis_score = .num ⟨0, 0⟩ ∧
      (execute_deep_research
        ⟨.obj [], S "oops", fun _ _ => .error (), S "m", .error (), fun _ => S "",
         fun _ _ => .error (), fun _ => [], [], [], [], .error (), [],
         fun _ _ => .error ()⟩
        (S "q") (S "") 0).events =
        [.progress (S "analysis"), .progress (S "planning"), .progress (S "studies")] := by
  refine C3_no_synthesis_early_return _ (S "q") (S "") 0 ?_ ?_
  · intro s hs
    rw [(by rfl : planStudies (S "oops") (S "q") 0 = [fallbackStudy (S "q")])] at hs
    rcases List.mem_singleton.mp hs with rfl
    rfl
  · intro j s sr h
    cases h

theorem JNum.blt_iff (a b : JNum) : JNum.blt a b = true ↔ a.val < b.val := by
  have hten : (10 : ℚ) ≠ 0 := by norm_num
  have hpos : (0 : ℚ) < 10 := by norm_num
  rw [JNum.blt]
  split
  · next hle =>
    rw [decide_eq_true_eq]
    have hk : ((b.exp - a.exp).toNat : ℤ) = b.exp - a.exp := Int.toNat_of_nonneg (by omega)
    have hbv : b.val = ((b.man * 10 ^ (b.exp - a.exp).toNat : ℤ) : ℚ) * (10 : ℚ) ^ a.exp := by
      rw [JNum.val]
      push_cast
      rw [← zpow_natCast (10 : ℚ) (b.exp - a.exp).toNat, mul_assoc, ← zpow_add₀ hten, hk,
        sub_add_cancel]
    rw [JNum.val, hbv, mul_lt_mul_right (zpow_pos hpos a.exp)]
    exact Int.cast_lt.symm
  · next hle =>
    rw [decide_eq_true_eq]
    have hk : ((a.exp - b.exp).toNat : ℤ) = a.exp - b.exp := Int.toNat_of_nonneg (by omega)
    have hav : a.val = ((a.man * 10 ^ (a.exp - b.exp).toNat : ℤ) : ℚ) * (10 : ℚ) ^ b.exp := by
      rw [JNum.val]
      push_cast
      rw [← zpow_natCast (10 : ℚ) (a.exp - b.exp).toNat, mul_assoc, ← zpow_add₀ hten, hk,
        sub_add_cancel]
    rw [hav, JNum.val, mul_lt_mul_right (zpow_pos hpos b.exp)]
    exact Int.cast_lt.symm

theorem JNum.blt_75_of_8 (a : JNum) (h : JNum.blt a ⟨8, 0⟩ = false) :
    JNum.blt a ⟨75, -1⟩ = false := by
  by_contra hc
  rw [Bool.not_eq_false, JNum.blt_iff] at hc
  have h8 : ¬ (JNum.blt a ⟨8, 0⟩ = true) := by rw [h]; simp
  rw [JNum.blt_iff] at h8
  have hv : JNum.val ⟨75, -1⟩ < JNum.val ⟨8, 0⟩ := by
    rw [JNum.val, JNum.val]
    norm_num
  exact h8 (lt_trans hc hv)

theorem eval_pass_score (text : Str) (d : Json)
    (heval : evaluate_synthesis text = .ok d)
    (hpass : (d.getD (S "refinement_needed") (.bool false)).truthy = false) :
    ∃ a : JNum, d.getD (S "overall_score") (.num ⟨0, 0⟩) = .num a ∧
      JNum.blt a ⟨8, 0⟩ = false := by
  cases hp : parse_json_response text with
  | none =>
    rw [evaluate_synthesis, hp] at heval
    injection heval with heval
    subst heval
    exact absurd hpass (by decide)
  | some j =>
    cases j with
    | obj kvs =>
      rw [evaluate_synthesis, hp] at heval
      simp only [Bind.bind] at heval
      cases hge : pyIterElems ((Json.obj kvs).getD (S "gaps") (.arr [])) with
      | error e => rw [hge] at heval; simp [Except.bind] at heval
      | ok ge =>
        rw [hge] at heval
        simp only [Except.bind] at heval
        cases hhh : anyHighGap ge with
        | error e => rw [hhh] at heval; simp [Except.bind] at heval
        | ok hh =>
          rw [hhh] at heval
          simp only [Except.bind] at heval
          cases hlt : pyLtNum ((Json.obj kvs).getD (S "overall_score") (.num ⟨5, 0⟩))
              REFINEMENT_THRESHOLD with
          | error e => rw [hlt] at heval; simp [Except.bind] at heval
          | ok ltv =>
            rw [hlt] at heval
            simp only [Except.bind, Except.ok.injEq] at heval
            subst heval
            have hrn : ((Json.obj kvs).setKey (S "refinement_needed")
                (.bool (ltv || hh))).getD (S "refinement_needed") (.bool false) =
                .bool (ltv || hh) := by
              rw [getD_eq_get?, setKey_get_same]
              rfl
            rw [hrn] at hpass
            have horr : (ltv || hh) = false := by simpa [Json.truthy] using hpass
            have hltv : ltv = false := by
              rcases Bool.or_eq_false_iff.mp horr with ⟨h1, _⟩
              exact h1
            subst hltv
            cases hov : lookupLast kvs (S "overall_score") with
            | none =>
              have h5 : (Json.obj kvs).getD (S "overall_score") (.num ⟨5, 0⟩) =
                  .num ⟨5, 0⟩ := by
                rw [getD_eq_get?]
                show (lookupLast kvs _).getD _ = _
                rw [hov]
                rfl
              rw [h5] at hlt
              rw [(by rfl : pyLtNum (.num ⟨5, 0⟩) REFINEMENT_THRESHOLD = .ok true)] at hlt
              cases hlt
            | some w =>
              have hgd5 : (Json.obj kvs).getD (S "overall_score") (.num ⟨5, 0⟩) = w := by
                rw [getD_eq_get?]
                show (lookupLast kvs _).getD _ = _
                rw [hov]
                rfl
              have hgd0 : ((Json.obj kvs).setKey (S "refinement_needed")
                  (.bool (false || hh))).getD (S "overall_score") (.num ⟨0, 0⟩) = w := by
                rw [getD_eq_get?, setKey_get_other kvs _ _ _ (by decide)]
                show (lookupLast kvs _).getD _ = _
                rw [hov]
                rfl
              rw [hgd5] at hlt
              cases w with
              | num a =>
                refine ⟨a, hgd0, ?_⟩
                simp only [pyLtNum, Except.ok.injEq] at hlt
                exact hlt
              | bool b =>
                cases b with
                | true =>
                  rw [(by rfl : pyLtNum (.bool true) REFINEMENT_THRESHOLD = .ok true)] at hlt
                  cases hlt
                | false =>
                  rw [(by rfl : pyLtNum (.bool false) REFINEMENT_THRESHOLD = .ok true)] at hlt
                  cases hlt
              | null => simp [pyLtNum] at hlt
              | str st => simp [pyLtNum] at hlt
              | arr xs => simp [pyLtNum] at hlt
              | obj kvs2 => simp [pyLtNum] at hlt
    | null =>
      rw [evaluate_synthesis, hp] at heval
      injection heval with heval
      subst heval
      exact absurd hpass (by decide)
    | bool b =>
      rw [evaluate_synthesis, hp] at heval
      injection heval with heval
      subst heval
      exact absurd hpass (by decide)
    | num q =>
      rw [evaluate_synthesis, hp] at heval
      injection heval with heval
      subst heval
      exact absurd hpass (by decide)
    | str s =>
      rw [evaluate_synthesis, hp] at heval
      injection heval with heval
      subst heval
      exact absurd hpass (by decide)
    | arr xs =>
      rw [evaluate_synthesis, hp] at heval
      injection heval with heval
      subst heval
      exact absurd hpass (by decide)

theorem refineLoop_first_pass (env : DeepEnv) (r : ResearchResult) (ev : List PipeEvent)
    (d : Json) (heval : evaluate_synthesis (env.evalText 0) = .ok d)
    (hpass : (d.getD (S "refinement_needed") (.bool false)).truthy = false) :
    refineLoop env 2 0 r ev = (ev ++ [.progress (S "evaluation")],
      .ok { r with synthesis_score := d.getD (S "overall_score") (.num ⟨0, 0⟩),
                   synthesis_scores := d.getD (S "scores") (.obj []),
                   refinement_rounds := 1 }) := by
  rw [refineLoop, heval]
  dsimp only
  simp [hpass]

theorem deepPhase4a_shape (env : DeepEnv) (r : ResearchResult) (ev : List PipeEvent)
    (hm : r.master_synthesis ≠ []) :
    ∃ r1, deepPhase4a env r ev = (r1, ev ++ [.progress (S "claim_validation")]) ∧
      r1.master_synthesis = r.master_synthesis := by
  have hie : r.master_synthesis.isEmpty = false := by
    rw [List.isEmpty_eq_false_iff_exists_mem]
    cases hh : r.master_synthesis with
    | nil => exact absurd hh hm
    | cons c t => exact ⟨c, by simp⟩
  rw [deepPhase4a, if_pos (by simp [hie])]
  cases env.claimValidation with
  | ok cv => exact ⟨_, rfl, rfl⟩
  | error e => exact ⟨r, rfl, rfl⟩

theorem deepPhase4c_shape (env : DeepEnv) (r : ResearchResult) (ev : List PipeEvent)
    (hm : r.master_synthesis ≠ []) :
    ∃ r1, deepPhase4c env r ev = (r1, ev ++ [.progress (S "strategic_analysis")]) ∧
      r1.master_synthesis = r.master_synthesis ∧
      r1.refinement_rounds = r.refinement_rounds := by
  have hie : r.master_synthesis.isEmpty = false := by
    rw [List.isEmpty_eq_false_iff_exists_mem]
    cases hh : r.master_synthesis with
    | nil => exact absurd hh hm
    | cons c t => exact ⟨c, by simp⟩
  rw [deepPhase4c, if_pos (by simp [hie])]
  cases env.strategicRun with
  | ok t => exact ⟨_, rfl, rfl, rfl⟩
  | error e => exact ⟨r, rfl, rfl, rfl⟩

theorem deepPhase4d_skip (env : DeepEnv) (r : ResearchResult) (ev : List PipeEvent)
    (hnfc : (env.queryAnalysis.getD (S "needs_fact_checking") (.bool false)).truthy = false) :
    deepPhase4d env false r ev = (r, ev) := by
  rw [deepPhase4d]
  dsimp only
  rw [hnfc]
  simp

theorem kgAugment_ne (master context : Str) (h : master ≠ []) :
    kgAugment master context ≠ [] := by
  rw [kgAugment]
  repeat' split
  all_goals (try exact h)
  all_goals (dsimp only; split <;> simp [h, List.append_eq_nil])

theorem deepPhase5_shape (env : DeepEnv) (query : Str) (r : ResearchResult)
    (ev : List PipeEvent) (hm : r.master_synthesis ≠ []) :
    (deepPhase5 env query r ev).events = ev ++ [.progress (S "qa")] ∧
    (∀ r', (deepPhase5 env query r ev).outcome = .ok r' →
        r'.refinement_rounds = r.refinement_rounds) := by
  have hie : r.master_synthesis.isEmpty = false := by
    rw [List.isEmpty_eq_false_iff_exists_mem]
    cases hh : r.master_synthesis with
    | nil => exact absurd hh hm
    | cons c t => exact ⟨c, by simp⟩
  rw [deepPhase5, if_neg (by simp [hie])]
  dsimp only
  constructor
  · repeat' split
    all_goals rfl
  · intro r' hr'
    revert hr'
    repeat' split
    all_goals intro hr'
    all_goals cases hr'
    all_goals rfl

/-- C4 (amended).  When the evaluator's first evaluation passes
(`refinement_needed` false, which forces a numeric score of at least
8.0) and the query analysis does not demand fact-checking, the pipeline
skips refinement (no refinement progress event is ever emitted),
proceeds to strategic analysis and Q&A, and the returned job has
`refinement_rounds = 1` — not 0: the counter is assigned
`refine_round + 1` before the skip check, so it counts evaluation
passes, and one evaluation always runs. -/
theorem C4_first_pass_rounds (env : DeepEnv) (query context : Str) (maxs : Nat)
    (d : Json) (srs : List StudyResult)
    (heval : evaluate_synthesis (env.evalText 0) = .ok d)
    (hpass : (d.getD (S "refinement_needed") (.bool false)).truthy = false)
    (hmaster : env.masterText ≠ [])
    (hnfc : (env.queryAnalysis.getD (S "needs_fact_checking") (.bool false)).truthy = false)
    (hstud : liftList (runStudies env 0 (planStudies env.planText query maxs)) = .ok srs)
    (hsucc : (srs.filter (fun s => !s.synthesis.isEmpty)).isEmpty = false) :
    (∀ r, (execute_deep_research env query context maxs).outcome = .ok r →
        r.refinement_rounds = 1) ∧
    PipeEvent.progress (S "strategic_analysis") ∈
      (execute_deep_research env query context maxs).events ∧
    PipeEvent.progress (S "qa") ∈
      (execute_deep_research env query context maxs).events ∧
    PipeEvent.progress (S "refinement") ∉
      (execute_deep_research env query context maxs).events := by
  obtain ⟨a, hsc, hblt⟩ := eval_pass_score (env.evalText 0) d heval hpass
  have hexec : execute_deep_research env query context maxs =
      deepPhases4to5 env query context
        { ResearchResult.init query with
            query_analysis := env.queryAnalysis,
            study_plan := planStudies env.planText query maxs,
            studies := srs }
        [.progress (S "analysis"), .progress (S "planning"), .progress (S "studies")] := by
    rw [execute_deep_research]
    dsimp only
    rw [hstud]
    dsimp only
    rw [hsucc]
    rfl
  obtain ⟨r1, h4a, h4am⟩ := deepPhase4a_shape env
    { ResearchResult.init query with
        query_analysis := env.queryAnalysis,
        study_plan := planStudies env.planText query maxs,
        studies := srs,
        master_synthesis := env.masterText }
    ([.progress (S "analysis"), .progress (S "planning"), .progress (S "studies")] ++
      [.progress (S "synthesis")])
    hmaster
  have h1m : r1.master_synthesis ≠ [] := by rw [h4am]; exact hmaster
  have hie1 : r1.master_synthesis.isEmpty = false := by
    rw [List.isEmpty_eq_false_iff_exists_mem]
    cases hh : r1.master_synthesis with
    | nil => exact absurd hh h1m
    | cons c t => exact ⟨c, by simp⟩
  have hrun : execute_deep_research env query context maxs =
      deepPhases4dOn env query context
        { r1 with
            synthesis_score := d.getD (S "overall_score") (.num ⟨0, 0⟩),
            synthesis_scores := d.getD (S "scores") (.obj []),
            refinement_rounds := 1 }
        ([.progress (S "analysis"), .progress (S "planning"), .progress (S "studies")] ++
          [.progress (S "synthesis")] ++ [.progress (S "claim_validation")] ++
          [.progress (S "evaluation")]) := by
    rw [hexec, deepPhases4to5]
    dsimp only
    rw [h4a]
    dsimp only
    rw [deepPhase4b, if_pos (by simp [hie1]),
      refineLoop_first_pass env r1 _ d heval hpass]
  have hlt75 : pyLtNum (.num a) ⟨75, -1⟩ = .ok false := by
    simp only [pyLtNum]
    rw [JNum.blt_75_of_8 a hblt]
  have hmid : (if JNum.blt ⟨0, 0⟩ a = true then pyLtNum (.num a) ⟨75, -1⟩
      else Except.ok false) = .ok false := by
    split
    · exact hlt75
    · rfl
  rw [hsc] at hrun
  obtain ⟨r3, h4c, h4cm, h4cr⟩ := deepPhase4c_shape env
    { r1 with
        synthesis_score := Json.num a,
        synthesis_scores := d.getD (S "scores") (.obj []),
        refinement_rounds := 1 }
    ([.progress (S "analysis"), .progress (S "planning"), .progress (S "studies")] ++
      [.progress (S "synthesis")] ++ [.progress (S "claim_validation")] ++
      [.progress (S "evaluation")])
    h1m
  have h3m : r3.master_synthesis ≠ [] := by rw [h4cm]; exact h1m
  have h4m : kgAugment r3.master_synthesis context ≠ [] := kgAugment_ne _ _ h3m
  have hrun2 : execute_deep_research env query context maxs =
      deepPhase5 env query
        { r3 with master_synthesis := kgAugment r3.master_synthesis context }
        ([.progress (S "analysis"), .progress (S "planning"), .progress (S "studies")] ++
          [.progress (S "synthesis")] ++ [.progress (S "claim_validation")] ++
          [.progress (S "evaluation")] ++ [.progress (S "strategic_analysis")]) := by
    rw [hrun, deepPhases4dOn]
    dsimp only
    simp only [pyGtNum]
    try dsimp only
    rw [hmid]
    try dsimp only
    rw [Bool.and_false, deepPhase4d_skip env _ _ hnfc]
    try dsimp only
    rw [h4c]
  obtain ⟨h5e, h5o⟩ := deepPhase5_shape env query
    { r3 with master_synthesis := kgAugment r3.master_synthesis context }
    ([.progress (S "analysis"), .progress (S "planning"), .progress (S "studies")] ++
      [.progress (S "synthesis")] ++ [.progress (S "claim_validation")] ++
      [.progress (S "evaluation")] ++ [.progress (S "strategic_analysis")])
    h4m
  refine ⟨?_, ?_, ?_, ?_⟩
  · intro r hr
    rw [hrun2] at hr
    have := h5o r hr
    rw [this]
    show r3.refinement_rounds = 1
    rw [h4cr]
  · rw [hrun2, h5e]
    simp
  · rw [hrun2, h5e]
    simp
  · rw [hrun2, h5e]
    decide

/-- C4 (counterexample).  A run in which the planner yields one
study, the study succeeds, and the evaluator's first evaluation passes
with score 8.5 (`refinement_needed` false): the returned job has
`refinement_rounds = 1`, refuting the claimed `refinementRounds == 0`. -/
theorem C4_counterexample :
    (∃ d, evaluate_synthesis
        (S "\x7b\"overall_score\": 8.5, \"gaps\": [], \"refinement_needed\": false\x7d") = .ok d ∧
      (d.getD (S "refinement_needed") (.bool false)).truthy = false) ∧
    (jobOf (execute_deep_research
        ⟨.obj [], S "[\x7b\"title\": \"A\", \"questions\": [\"q1\"]\x7d]",
         fun _ _ => .ok ⟨.str (S "A"), .str [], .arr [.str (S "q1")], [], S "study synthesis"⟩,
         S "master synthesis", .ok (.obj []),
         fun _ => S "\x7b\"overall_score\": 8.5, \"gaps\": [], \"refinement_needed\": false\x7d",
         fun _ _ => .error (), fun _ => [], [], [], [], .ok (S "strategic"), S "no clusters",
         fun _ _ => .error ()⟩
        (S "market outlook") [] 0)).map ResearchResult.refinement_rounds = some 1 ∧
    (jobOf (execute_deep_research
        ⟨.obj [], S "[\x7b\"title\": \"A\", \"questions\": [\"q1\"]\x7d]",
         fun _ _ => .ok ⟨.str (S "A"), .str [], .arr [.str (S "q1")], [], S "study synthesis"⟩,
         S "master synthesis", .ok (.obj []),
         fun _ => S "\x7b\"overall_score\": 8.5, \"gaps\": [], \"refinement_needed\": false\x7d",
         fun _ _ => .error (), fun _ => [], [], [], [], .ok (S "strategic"), S "no clusters",
         fun _ _ => .error ()⟩
        (S "market outlook") [] 0)).map ResearchResult.refinement_rounds ≠ some 0 := by
  refine ⟨⟨_, rfl, rfl⟩, rfl, by decide⟩

/-- C4 witness: the amended theorem applied to the concrete
first-pass run. -/
theorem C4_witness :
    (∀ r, (execute_deep_research
        ⟨.obj [], S "[\x7b\"title\": \"A\", \"questions\": [\"q1\"]\x7d]",
         fun _ _ => .ok ⟨.str (S "A"), .str [], .arr [.str (S "q1")], [], S "study synthesis"⟩,
         S "master synthesis", .ok (.obj []),
         fun _ => S "\x7b\"overall_score\": 8.5, \"gaps\": [], \"refinement_needed\": false\x7d",
         fun _ _ => .error (), fun _ => [], [], [], [], .ok (S "strategic"), S "no clusters",
         fun _ _ => .error ()⟩
        (S "market outlook") [] 0).outcome = .ok r → r.refinement_rounds = 1) ∧
    PipeEvent.progress (S "strategic_analysis") ∈
      (execute_deep_research
        ⟨.obj [], S "[\x7b\"title\": \"A\", \"questions\": [\"q1\"]\x7d]",
         fun _ _ => .ok ⟨.str (S "A"), .str [], .arr [.str (S "q1")], [], S "study synthesis"⟩,
         S "master synthesis", .ok (.obj []),
         fun _ => S "\x7b\"overall_score\": 8.5, \"gaps\": [], \"refinement_needed\": false\x7d",
         fun _ _ => .error (), fun _ => [], [], [], [], .ok (S "strategic"), S "no clusters",
         fun _ _ => .error ()⟩
        (S "market outlook") [] 0).events ∧
    PipeEvent.progress (S "qa") ∈
      (execute_deep_research
        ⟨.obj [], S "[\x7b\"title\": \"A\", \"questions\": [\"q1\"]\x7d]",
         fun _ _ => .ok ⟨.str (S "A"), .str [], .arr [.str (S "q1")], [], S "study synthesis"⟩,
         S "master synthesis", .ok (.obj []),
         fun _ => S "\x7b\"overall_score\": 8.5, \"gaps\": [], \"refinement_needed\": false\x7d",
         fun _ _ => .error (), fun _ => [], [], [], [], .ok (S "strategic"), S "no clusters",
         fun _ _ => .error ()⟩
        (S "market outlook") [] 0).events ∧
    PipeEvent.progress (S "refinement") ∉
      (execute_deep_research
        ⟨.obj [], S "[\x7b\"title\": \"A\", \"questions\": [\"q1\"]\x7d]",
         fun _ _ => .ok ⟨.str (S "A"), .str [], .arr [.str (S "q1")], [], S "study synthesis"⟩,
         S "master synthesis", .ok (.obj []),
         fun _ => S "\x7b\"overall_score\": 8.5, \"gaps\": [], \"refinement_needed\": false\x7d",
         fun _ _ => .error (), fun _ => [], [], [], [], .ok (S "strategic"), S "no clusters",
         fun _ _ => .error ()⟩
        (S "market outlook") [] 0).events := by
  exact C4_first_pass_rounds
    ⟨.obj [], S "[\x7b\"title\": \"A\", \"questions\": [\"q1\"]\x7d]",
     fun _ _ => .ok ⟨.str (S "A"), .str [], .arr [.str (S "q1")], [], S "study synthesis"⟩,
     S "master synthesis", .ok (.obj []),
     fun _ => S "\x7b\"overall_score\": 8.5, \"gaps\": [], \"refinement_needed\": false\x7d",
     fun _ _ => .error (), fun _ => [], [], [], [], .ok (S "strategic"), S "no clusters",
     fun _ _ => .error ()⟩
    (S "market outlook") [] 0 _ _ rfl rfl (by decide) rfl rfl rfl

/-- One semaphore step preserves `runningCount ≤ cap`. -/
theorem semStep_runningCount {cap : Nat} {a b : List TaskState}
    (hab : SemStep cap a b) (ha : runningCount a ≤ cap) : runningCount b ≤ cap := by
  cases hab with
  | start l1 l2 h =>
    simp only [runningCount, List.countP_append, List.countP_cons] at h ⊢
    simp at h ⊢
    omega
  | finish l1 l2 =>
    simp only [runningCount, List.countP_append, List.countP_cons] at ha ⊢
    simp at ha ⊢
    omega

/-- Any semaphore state can run to completion (capacity permitting):
pending tasks are queued, never failed.  Induction on twice the pending
count plus the running count. -/
theorem semProgress (cap : Nat) (hcap : 0 < cap) :
    ∀ m l, 2 * List.countP (· = TaskState.pending) l +
        List.countP (· = TaskState.running) l ≤ m →
      SemReach cap l (List.replicate l.length TaskState.done) := by
  intro m
  induction m with
  | zero =>
    intro l h
    have hp : List.countP (· = TaskState.pending) l = 0 := by omega
    have hr : List.countP (· = TaskState.running) l = 0 := by omega
    have hall : ∀ t ∈ l, t = TaskState.done := by
      intro t ht
      cases t with
      | done => rfl
      | pending =>
        rw [List.countP_eq_zero] at hp
        exact absurd (by decide) (hp _ ht)
      | running =>
        rw [List.countP_eq_zero] at hr
        exact absurd (by decide) (hr _ ht)
    have hl : l = List.replicate l.length TaskState.done := List.eq_replicate_of_mem hall
    rw [← hl]
    exact Relation.ReflTransGen.refl
  | succ k ih =>
    intro l h
    by_cases hr : TaskState.running ∈ l
    · obtain ⟨l1, l2, rfl⟩ := List.append_of_mem hr
      have hcnt : 2 * List.countP (· = TaskState.pending) (l1 ++ TaskState.done :: l2) +
          List.countP (· = TaskState.running) (l1 ++ TaskState.done :: l2) ≤ k := by
        simp only [List.countP_append, List.countP_cons] at h ⊢
        simp at h ⊢
        omega
      have hrec := ih _ hcnt
      exact Relation.ReflTransGen.head (SemStep.finish l1 l2) (by simpa using hrec)
    · by_cases hp : TaskState.pending ∈ l
      · obtain ⟨l1, l2, rfl⟩ := List.append_of_mem hp
        have hzero : runningCount (l1 ++ TaskState.pending :: l2) = 0 := by
          rw [runningCount, List.countP_eq_zero]
          intro t ht hteq
          rw [decide_eq_true_eq] at hteq
          exact hr (hteq ▸ ht)
        have hcnt : 2 * List.countP (· = TaskState.pending) (l1 ++ TaskState.running :: l2) +
            List.countP (· = TaskState.running) (l1 ++ TaskState.running :: l2) ≤ k := by
          simp only [List.countP_append, List.countP_cons] at h ⊢
          simp at h ⊢
          omega
        have hrec := ih _ hcnt
        exact Relation.ReflTransGen.head
          (SemStep.start l1 l2 (by rw [hzero]; exact hcap)) (by simpa using hrec)
      · have hall : ∀ t ∈ l, t = TaskState.done := by
          intro t ht
          cases t with
          | pending => exact absurd ht hp
          | running => exact absurd ht hr
          | done => rfl
        have hl : l = List.replicate l.length TaskState.done := List.eq_replicate_of_mem hall
        rw [← hl]
        exact Relation.ReflTransGen.refl

/-- C2 (counterexample).  The claim says one shared semaphore gates
every fan-out point, so no more than K = 3 researcher calls are ever in
flight.  In the code `sem` caps concurrently *running studies* at 3,
but inside a study's round `run_iterative_study` fans out one
researcher per question under a `ParallelAgent` with no semaphore: in
the reachable scheduler state with three running studies of two
questions each, six researcher calls are in flight, exceeding
`MAX_CONCURRENT_STUDIES = 3`. -/
theorem C2_counterexample :
    SemReach MAX_CONCURRENT_STUDIES (semInit 3)
      [TaskState.running, .running, .running] ∧
    MAX_CONCURRENT_STUDIES <
      inFlightResearchers [2, 2, 2] [TaskState.running, .running, .running] := by
  constructor
  · show Relation.ReflTransGen (SemStep MAX_CONCURRENT_STUDIES)
      [TaskState.pending, .pending, .pending] [TaskState.running, .running, .running]
    refine Relation.ReflTransGen.head
      (SemStep.start [] [.pending, .pending] (by decide)) ?_
    refine Relation.ReflTransGen.head
      (SemStep.start [.running] [.pending] (by decide)) ?_
    exact Relation.ReflTransGen.single
      (SemStep.start [.running, .running] [] (by decide))
  · decide

/-- C2 (amended).  Per fan-out point the semaphore bound does hold:
in every scheduler state reachable from `n` gathered tasks under a
semaphore of capacity `cap`, at most `cap` tasks are running, and the
state can always continue to all-done — excess tasks are queued, never
failed.  (The study gather and the Q&A gather each use their own
capacity-3 semaphore; researcher fan-out inside a round is ungated,
see the counterexample.) -/
theorem C2_semaphore_per_fanout (cap n : Nat) (hcap : 0 < cap) (l : List TaskState)
    (h : SemReach cap (semInit n) l) :
    runningCount l ≤ cap ∧ SemReach cap l (List.replicate l.length TaskState.done) := by
  constructor
  · induction h with
    | refl =>
      have h0 : runningCount (semInit n) = 0 := by
        rw [runningCount, List.countP_eq_zero]
        intro t ht hteq
        rw [decide_eq_true_eq] at hteq
        have hpend : t = TaskState.pending :=
          List.eq_of_mem_replicate (by simpa [semInit] using ht)
        rw [hpend] at hteq
        cases hteq
      omega
    | tail hab hbc ih => exact semStep_runningCount hbc ih
  · exact semProgress cap hcap _ l le_rfl

/-- C2 witness: the per-fan-out bound at capacity 3, three tasks, in
the reachable state with one running study. -/
theorem C2_witness :
    0 < MAX_CONCURRENT_STUDIES ∧
    runningCount [TaskState.running, .pending, .pending] ≤ MAX_CONCURRENT_STUDIES ∧
    SemReach MAX_CONCURRENT_STUDIES [TaskState.running, .pending, .pending]
      (List.replicate 3 TaskState.done) := by
  have hreach : SemReach MAX_CONCURRENT_STUDIES (semInit 3)
      [TaskState.running, .pending, .pending] :=
    Relation.ReflTransGen.single (SemStep.start [] [.pending, .pending] (by decide))
  have h := C2_semaphore_per_fanout MAX_CONCURRENT_STUDIES 3 (by decide)
    [TaskState.running, .pending, .pending] hreach
  exact ⟨by decide, h.1, h.2⟩

/-- Unfolding `fenceSubGo` on a head that cannot open a fence. -/
theorem fenceSubGo_cons (b : Bool) (c : Char) (t : Str) (hc : c ≠ '`') :
    fenceSubGo b (c :: t) =
      if b && pyWsChar c then fenceSubGo true t else c :: fenceSubGo false t := by
  rw [fenceSubGo.eq_def]
  split
  · rename_i heq; cases heq
  · rename_i heq; injection heq with h1 _; exact absurd h1 hc
  · rename_i heq; injection heq with h1 _; exact absurd h1 hc
  · rename_i heq; injection heq with h1 h2; subst h1; subst h2; rfl

/-- Unfolding `fenceSubGo` on a bare fence not followed by "json". -/
theorem fenceSubGo_fence (b : Bool) (t : Str) (ht : t.head? ≠ some 'j') :
    fenceSubGo b ('`' :: '`' :: '`' :: t) = fenceSubGo true t := by
  rw [fenceSubGo.eq_def]
  split
  · rename_i heq; cases heq
  · rename_i heq
    injection heq with _ heq; injection heq with _ heq; injection heq with _ heq
    exact absurd (by rw [heq]; rfl) ht
  · rename_i heq
    injection heq with _ heq; injection heq with _ heq; injection heq with h3 h4
    rw [h4]
  · rename_i hne heq
    injection heq with h1 h2
    exact absurd (hne t h1.symm h2.symm) (fun h => h)

/-- Unfolding `fenceSubGo` on a "```json" fence. -/
theorem fenceSubGo_fenceJson (b : Bool) (t : Str) :
    fenceSubGo b ('`' :: '`' :: '`' :: 'j' :: 's' :: 'o' :: 'n' :: t) =
      fenceSubGo true t := rfl

/-- `fenceSubGo` on the empty input. -/
theorem fenceSubGo_nil (b : Bool) : fenceSubGo b [] = [] := rfl

/-- Backtick-free text passes through the fence regex verbatim. -/
theorem fenceSubGo_pass (p : Str) (hp : '`' ∉ p) (rest : Str) :
    fenceSubGo false (p ++ rest) = p ++ fenceSubGo false rest := by
  induction p with
  | nil => rfl
  | cons c pt ih =>
    have hc : c ≠ '`' := fun h => hp (h ▸ List.mem_cons_self c pt)
    rw [List.cons_append, fenceSubGo_cons false c (pt ++ rest) hc]
    simp only [Bool.false_and, Bool.false_eq_true, if_false]
    rw [ih (fun h => hp (List.mem_cons_of_mem c h))]
    rfl

/-- Fence junk never starts with the letter `j`, so appending it to a
payload that does not start with `j` keeps the head off `j`. -/
theorem fenceJunk_head {j : Str} (hj : FenceJunk j) (s : Str)
    (hs : s.head? ≠ some 'j') : (j ++ s).head? ≠ some 'j' := by
  cases hj with
  | nil => simpa using hs
  | ws hc _ =>
    rename_i c _
    intro h
    rw [List.cons_append, List.head?_cons, Option.some.injEq] at h
    rw [h] at hc
    exact absurd hc (by decide)
  | fence _ => intro h; rw [List.cons_append, List.head?_cons] at h; exact absurd h (by decide)
  | fenceJson _ => intro h; rw [List.cons_append, List.head?_cons] at h; exact absurd h (by decide)

/-- Stripping the fence regex from junk followed by a payload yields
only residual whitespace before the stripped payload. -/
theorem fenceSubGo_junk {j : Str} (hj : FenceJunk j) (s : Str)
    (hs : s.head? ≠ some 'j') :
    ∀ b, ∃ w b', (∀ c ∈ w, pyWsChar c = true) ∧
      fenceSubGo b (j ++ s) = w ++ fenceSubGo b' s := by
  induction hj with
  | nil => exact fun b => ⟨[], b, by simp, rfl⟩
  | ws hc _ ih =>
    rename_i c j' _
    intro b
    have hcb : c ≠ '`' := fun h => absurd (h ▸ hc) (by decide)
    rw [List.cons_append, fenceSubGo_cons b c (j' ++ s) hcb]
    cases b with
    | true =>
      obtain ⟨w, b', hw, heq⟩ := ih true
      exact ⟨w, b', hw, by rw [hc]; simpa using heq⟩
    | false =>
      obtain ⟨w, b', hw, heq⟩ := ih false
      refine ⟨c :: w, b', ?_, by simpa using heq⟩
      intro x hx
      rcases List.mem_cons.mp hx with h | h
      · exact h ▸ hc
      · exact hw x h
  | fence hj' ih =>
    intro b
    rw [List.cons_append, List.cons_append, List.cons_append,
      fenceSubGo_fence b _ (fenceJunk_head hj' s hs)]
    exact ih true
  | fenceJson hj' ih =>
    intro b
    rw [List.cons_append, List.cons_append, List.cons_append, List.cons_append,
      List.cons_append, List.cons_append, List.cons_append, fenceSubGo_fenceJson]
    exact ih true

/-- The trailing-fence regex leaves backtick-free text unchanged. -/
theorem tailFenceSub_pass (s : Str) (hs : '`' ∉ s) : tailFenceSub s = s := by
  induction s with
  | nil => rfl
  | cons c t ih =>
    have hc : c ≠ '`' := fun h => hs (h ▸ List.mem_cons_self c t)
    rw [tailFenceSub, if_neg (fun h => hc h.1), ih (fun h => hs (List.mem_cons_of_mem c h))]

/-- `dropWhile` skips a block of satisfying characters. -/
theorem dropWhile_append_all {p : Char → Bool} (a b : Str) (ha : ∀ c ∈ a, p c = true) :
    (a ++ b).dropWhile p = b.dropWhile p := by
  induction a with
  | nil => rfl
  | cons c t ih =>
    rw [List.cons_append, List.dropWhile_cons, if_pos (ha c (List.mem_cons_self c t))]
    exact ih (fun x hx => ha x (List.mem_cons_of_mem c hx))

/-- The head surviving a `dropWhile` fails the predicate. -/
theorem dropWhile_head_false {p : Char → Bool} {l : Str} {c : Char} {t : Str}
    (h : l.dropWhile p = c :: t) : p c = false := by
  induction l with
  | nil => cases h
  | cons a l' ih =>
    rw [List.dropWhile_cons] at h
    by_cases hp : p a = true
    · rw [if_pos hp] at h; exact ih h
    · rw [if_neg hp] at h; injection h with h1 _; rw [← h1]; simpa using hp

/-- An element failing the predicate survives `dropWhile`. -/
theorem mem_dropWhile_of_false {p : Char → Bool} {a : Char} (ha : p a = false) :
    ∀ {l : Str}, a ∈ l → a ∈ l.dropWhile p := by
  intro l
  induction l with
  | nil => exact fun h => absurd h (List.not_mem_nil a)
  | cons c t ih =>
    intro h
    rw [List.dropWhile_cons]
    by_cases hc : p c = true
    · rw [if_pos hc]
      rcases List.mem_cons.mp h with h1 | h1
      · rw [h1] at ha; rw [ha] at hc; cases hc
      · exact ih h1
    · rw [if_neg hc]; exact h

/-- A list holding an element failing the predicate does not vanish
under `dropWhile`. -/
theorem dropWhile_ne_nil_of_mem {p : Char → Bool} {a : Char} {l : Str}
    (hm : a ∈ l) (ha : p a = false) : l.dropWhile p ≠ [] := by
  intro h
  rw [List.dropWhile_eq_nil_iff] at h
  have := h a hm
  rw [ha] at this
  cases this

/-- `str.strip()` around a block with non-whitespace first and last
characters removes exactly the surrounding whitespace. -/
theorem pyStrip_mid (pre x w : Str) (hpre : ∀ c ∈ pre, pyWsChar c = true)
    (hw : ∀ c ∈ w, pyWsChar c = true)
    (hhead : ∃ c t, x = c :: t ∧ pyWsChar c = false)
    (hlast : ∃ y c, x = y ++ [c] ∧ pyWsChar c = false) :
    pyStrip (pre ++ x ++ w) = x := by
  obtain ⟨c, t, hx, hc⟩ := hhead
  obtain ⟨y, d, hy, hd⟩ := hlast
  rw [pyStrip, List.append_assoc, dropWhile_append_all pre (x ++ w) hpre]
  rw [hx, List.cons_append, List.dropWhile_cons, if_neg (by rw [hc]; exact Bool.false_ne_true),
    ← List.cons_append, ← hx]
  rw [List.reverse_append, dropWhile_append_all w.reverse x.reverse
    (fun ch hch => hw ch (List.mem_reverse.mp hch))]
  rw [hy, List.reverse_append, List.reverse_singleton, List.singleton_append,
    List.dropWhile_cons, if_neg (by rw [hd]; exact Bool.false_ne_true),
    List.reverse_cons, List.reverse_reverse]

/-- `parseNum` consumes only number characters, so a `]` in the input
survives into the remainder. -/
theorem parseNum_rbrack (s : Str) (v : Json) (r : Str) (hmem : ']' ∈ s)
    (h : parseNum s = some (v, r)) : ']' ∈ r := by
  have step : ∀ {l : Str}, ']' ∈ l → ']' ∈ List.dropWhile Char.isDigit l :=
    fun h' => mem_dropWhile_of_false (by decide) h'
  have pop : ∀ {c : Char} {l : Str}, c ≠ ']' → ']' ∈ c :: l → ']' ∈ l :=
    fun hc h' => (List.mem_cons.mp h').resolve_left (fun he => hc he.symm)
  unfold parseNum at h
  split at h
  rename_i neg s1 heq
  have hm1 : ']' ∈ s1 := by
    split at heq <;> (injection heq with h1 h2; subst h2)
    · exact pop (by decide) hmem
    · exact hmem
  clear heq
  dsimp only at h
  split at h
  · exact Option.noConfusion h
  split at h
  · exact Option.noConfusion h
  split at h
  · exact Option.noConfusion h
  injection h with hp
  injection hp with h1 h2
  subst h2
  have hm2 : ']' ∈ (match List.dropWhile Char.isDigit s1 with
      | '.' :: t => (some (List.takeWhile Char.isDigit t), List.dropWhile Char.isDigit t)
      | x => (none, List.dropWhile Char.isDigit s1)).2 := by
    split
    · rename_i t heqx
      exact step (pop (by decide) (heqx ▸ step hm1))
    · exact step hm1
  split <;>
    first
      | exact hm2
      | (rename_i heqx; exact step (pop (by decide) (heqx ▸ hm2)))
      | (rename_i heqx; exact step (pop (by decide) (pop (by decide) (heqx ▸ hm2))))

/-- A parse attempt on prose that does not open a container or a string
leaves the `]` of a later array in the remainder. -/
theorem parseVal_prose (n : Nat) (c0 : Char) (t : Str)
    (hws : jsonWsChar c0 = false)
    (h1 : c0 ≠ '{') (h2 : c0 ≠ '[') (h3 : c0 ≠ '"')
    (hmem : ']' ∈ t) (v : Json) (r : Str)
    (h : parseVal (n + 1) (c0 :: t) = some (v, r)) : ']' ∈ r := by
  rw [parseVal.eq_def] at h
  dsimp only at h
  rw [List.dropWhile_cons, if_neg (by simp [hws])] at h
  split at h
  · exact Option.noConfusion h
  · rename_i heq
    injection heq with hc ht
    exact absurd hc h1
  · rename_i heq
    injection heq with hc ht
    exact absurd hc h2
  · rename_i heq
    injection heq with hc ht
    exact absurd hc h3
  · rename_i heq
    injection heq with hc ht
    subst ht
    split at h
    · rename_i hcond
      injection h with hp
      injection hp with hv hr
      subst hr
      have hsplit := hmem
      rw [← List.take_append_drop 3 t] at hsplit
      rcases List.mem_append.mp hsplit with hL | hR
      · rw [hcond] at hL
        exact absurd hL (by decide)
      · exact hR
    · exact Option.noConfusion h
  · rename_i heq
    injection heq with hc ht
    subst ht
    split at h
    · rename_i hcond
      injection h with hp
      injection hp with hv hr
      subst hr
      have hsplit := hmem
      rw [← List.take_append_drop 4 t] at hsplit
      rcases List.mem_append.mp hsplit with hL | hR
      · rw [hcond] at hL
        exact absurd hL (by decide)
      · exact hR
    · exact Option.noConfusion h
  · rename_i heq
    injection heq with hc ht
    subst ht
    split at h
    · rename_i hcond
      injection h with hp
      injection hp with hv hr
      subst hr
      have hsplit := hmem
      rw [← List.take_append_drop 3 t] at hsplit
      rcases List.mem_append.mp hsplit with hL | hR
      · rw [hcond] at hL
        exact absurd hL (by decide)
      · exact hR
    · exact Option.noConfusion h
  · rename_i heq
    injection heq with hc ht
    subst hc
    subst ht
    split at h
    · exact parseNum_rbrack _ v r (List.mem_cons_of_mem _ hmem) h
    · exact Option.noConfusion h

/-- `json.loads` rejects prose followed by an array: whatever prefix a
parse could consume, the trailing `]` is left over. -/
theorem jsonLoads_prose (c0 : Char) (t : Str)
    (hws : jsonWsChar c0 = false)
    (h1 : c0 ≠ '\x7b') (h2 : c0 ≠ '[') (h3 : c0 ≠ '"')
    (hmem : ']' ∈ t) : jsonLoads (c0 :: t) = none := by
  unfold jsonLoads
  cases hpv : parseVal ((c0 :: t).length + 1) (c0 :: t) with
  | none => rfl
  | some p =>
    obtain ⟨v, r⟩ := p
    have hr := parseVal_prose (c0 :: t).length c0 t hws h1 h2 h3 hmem v r hpv
    have hne : r.dropWhile jsonWsChar ≠ [] :=
      dropWhile_ne_nil_of_mem hr (by decide)
    dsimp only
    rw [if_neg (fun hh => hne (List.isEmpty_iff.mp hh))]

/-- The greedy `\[[\s\S]*\]` search on bracket-free prose followed by a
bracketed block recovers exactly that block. -/
theorem bracketSpan_extract (sp mid : Str)
    (hsp : ∀ c ∈ sp, ¬c = '[' ∧ ¬c = ']') :
    bracketSpan '[' ']' (sp ++ '[' :: (mid ++ [']'])) = some ('[' :: (mid ++ [']'])) := by
  have hf1 : List.findIdx? (· = '[') (sp ++ '[' :: (mid ++ [']'])) = some sp.length := by
    rw [List.findIdx?_append, List.findIdx?_eq_none_iff.mpr
      (fun c hc => by simp [(hsp c hc).1]), List.findIdx?_cons, if_pos (by decide)]
    simp
  have hrev : (sp ++ '[' :: (mid ++ [']'])).reverse =
      ']' :: (mid.reverse ++ ['['] ++ sp.reverse) := by
    simp
  have hf2 : List.findIdx? (· = ']') (sp ++ '[' :: (mid ++ [']'])).reverse = some 0 := by
    rw [hrev, List.findIdx?_cons, if_pos (by decide)]
  unfold bracketSpan
  rw [hf1, hf2]
  dsimp only
  rw [if_pos (by simp only [List.length_append, List.length_cons, List.length_nil]; omega)]
  rw [List.drop_left]
  rw [List.take_of_length_le
    (by simp only [List.length_append, List.length_cons, List.length_nil]; omega)]

/-- JSON whitespace is Python whitespace. -/
theorem jsonWs_false_of_pyWs_false {c : Char} (h : pyWsChar c = false) :
    jsonWsChar c = false := by
  rw [pyWsChar] at h
  rcases Bool.or_eq_false_iff.mp h with ⟨h', _⟩
  exact (Bool.or_eq_false_iff.mp h').1

/-- Members of a `takeWhile` block satisfy the predicate. -/
theorem takeWhile_mem_imp {p : Char → Bool} : ∀ {l : Str} {c : Char},
    c ∈ l.takeWhile p → p c = true := by
  intro l
  induction l with
  | nil => exact fun hc => absurd hc (List.not_mem_nil _)
  | cons a t ih =>
    intro c hc
    rw [List.takeWhile_cons] at hc
    by_cases ha : p a = true
    · rw [if_pos ha] at hc
      rcases List.mem_cons.mp hc with h | h
      · rw [h]; exact ha
      · exact ih h
    · rw [if_neg ha] at hc
      exact absurd hc (List.not_mem_nil c)

/-- C5 (amended).  For prose free of backticks and JSON delimiter
characters followed by a JSON array wrapped in any amount of fence
junk (whitespace, "```", "```json" — zero, one or many fences),
`parse_json_response` returns exactly the value of the array: when
the prose strips to nothing the cleaned text itself loads, and
otherwise the direct load fails and the greedy bracket search
recovers the array.  (The claim as stated is refuted by the
counterexample: prose containing `[` or `]` breaks the bracket
search, returning the sentinel instead of the embedded value.) -/
theorem C5_parse_json_fenced_array (prose j1 mid j2 : Str) (v : Json)
    (hprose : ∀ c ∈ prose,
      ¬c = '`' ∧ ¬c = '[' ∧ ¬c = ']' ∧ ¬c = '{' ∧ ¬c = '}' ∧ ¬c = '"')
    (hj1 : FenceJunk j1) (hj2 : FenceJunk j2) (hmid : '`' ∉ mid)
    (hload : jsonLoads ('[' :: (mid ++ [']'])) = some v) :
    parse_json_response (prose ++ j1 ++ ('[' :: (mid ++ [']'])) ++ j2) = some v := by
  have hpb : '`' ∉ prose := fun hh => (hprose _ hh).1 rfl
  have hassoc : prose ++ j1 ++ ('[' :: (mid ++ [']'])) ++ j2 =
      prose ++ (j1 ++ ('[' :: (mid ++ ([']'] ++ j2)))) := by
    simp [List.append_assoc]
  obtain ⟨w1, b1, hw1, hfs1⟩ :=
    fenceSubGo_junk hj1 ('[' :: (mid ++ ([']'] ++ j2))) (by simp) false
  have hconsHard : ∀ b : Bool, fenceSubGo b ('[' :: (mid ++ ([']'] ++ j2))) =
      '[' :: fenceSubGo false (mid ++ ([']'] ++ j2)) := by
    intro b
    rw [fenceSubGo_cons b '[' _ (by decide), (by decide : pyWsChar '[' = false),
      Bool.and_false, if_neg (by decide)]
  rw [hconsHard b1, ← List.append_assoc mid [']'] j2] at hfs1
  have hfs2 : fenceSubGo false ((mid ++ [']']) ++ j2) = (mid ++ [']']) ++ fenceSubGo false j2 :=
    fenceSubGo_pass (mid ++ [']']) (by
      intro hh
      rcases List.mem_append.mp hh with hh | hh
      · exact hmid hh
      · exact absurd hh (by decide)) j2
  obtain ⟨w2, b2, hw2, hfs3⟩ := fenceSubGo_junk hj2 [] (by simp) false
  rw [List.append_nil, fenceSubGo_nil, List.append_nil] at hfs3
  rw [hfs2, hfs3] at hfs1
  have hfence : fenceSub (prose ++ j1 ++ ('[' :: (mid ++ [']'])) ++ j2) =
      prose ++ (w1 ++ ('[' :: ((mid ++ [']']) ++ w2))) := by
    rw [fenceSub, hassoc, fenceSubGo_pass prose hpb _, ← List.append_assoc mid [']'] j2, hfs1]
  have hnb : '`' ∉ prose ++ (w1 ++ ('[' :: ((mid ++ [']']) ++ w2))) := by
    intro hh
    rcases List.mem_append.mp hh with hh | hh
    · exact hpb hh
    rcases List.mem_append.mp hh with hh | hh
    · exact absurd (hw1 _ hh) (by decide)
    rcases List.mem_cons.mp hh with hh | hh
    · exact absurd hh (by decide)
    rcases List.mem_append.mp hh with hh | hh
    · rcases List.mem_append.mp hh with hh | hh
      · exact hmid hh
      · exact absurd hh (by decide)
    · exact absurd (hw2 _ hh) (by decide)
  have hne : ¬(prose ++ j1 ++ ('[' :: (mid ++ [']'])) ++ j2).isEmpty = true := by
    simp
  unfold parse_json_response
  rw [if_neg hne]
  dsimp only
  rw [hfence, tailFenceSub_pass _ hnb]
  cases hdp : List.dropWhile pyWsChar prose with
  | nil =>
    have hpw : ∀ c ∈ prose, pyWsChar c = true := List.dropWhile_eq_nil_iff.mp hdp
    have har : prose ++ (w1 ++ ('[' :: ((mid ++ [']']) ++ w2))) =
        (prose ++ w1) ++ ('[' :: (mid ++ [']'])) ++ w2 := by
      simp [List.append_assoc]
    rw [har, pyStrip_mid (prose ++ w1) ('[' :: (mid ++ [']'])) w2
      (fun c hc => by
        rcases List.mem_append.mp hc with hc | hc
        · exact hpw c hc
        · exact hw1 c hc)
      hw2 ⟨'[', mid ++ [']'], rfl, by decide⟩
      ⟨'[' :: mid, ']', by simp, by decide⟩]
    rw [hload]
  | cons c0 pr =>
    have hc0w : pyWsChar c0 = false := dropWhile_head_false hdp
    have hsplit : prose.takeWhile pyWsChar ++ (c0 :: pr) = prose := by
      rw [← hdp]
      exact List.takeWhile_append_dropWhile pyWsChar prose
    have hmem_pr : ∀ c ∈ c0 :: pr, c ∈ prose := fun c hc => by
      rw [← hsplit]
      exact List.mem_append_right _ hc
    have hc0 := hprose c0 (hmem_pr c0 (List.mem_cons_self c0 pr))
    have har2 : prose ++ (w1 ++ ('[' :: ((mid ++ [']']) ++ w2))) =
        prose.takeWhile pyWsChar ++
          (c0 :: (pr ++ w1 ++ ('[' :: (mid ++ [']'])))) ++ w2 := by
      conv_lhs => rw [← hsplit]
      simp [List.append_assoc]
    rw [har2, pyStrip_mid (prose.takeWhile pyWsChar)
      (c0 :: (pr ++ w1 ++ ('[' :: (mid ++ [']'])))) w2
      (fun c hc => takeWhile_mem_imp hc) hw2
      ⟨c0, pr ++ w1 ++ ('[' :: (mid ++ [']'])), rfl, hc0w⟩
      ⟨c0 :: (pr ++ w1 ++ ('[' :: mid)), ']', by simp, by decide⟩]
    rw [jsonLoads_prose c0 (pr ++ w1 ++ ('[' :: (mid ++ [']'])))
      (jsonWs_false_of_pyWs_false hc0w) hc0.2.2.2.1 hc0.2.1 hc0.2.2.2.2.2
      (by simp)]
    dsimp only
    have har3 : c0 :: (pr ++ w1 ++ ('[' :: (mid ++ [']']))) =
        (c0 :: (pr ++ w1)) ++ ('[' :: (mid ++ [']'])) := by
      simp [List.append_assoc]
    rw [har3, bracketSpan_extract (c0 :: (pr ++ w1)) mid
      (fun c hc => by
        rcases List.mem_cons.mp hc with hc | hc
        · exact hc ▸ ⟨hc0.2.1, hc0.2.2.1⟩
        rcases List.mem_append.mp hc with hc | hc
        · have := hprose c (hmem_pr c (List.mem_cons_of_mem c0 hc))
          exact ⟨this.2.1, this.2.2.1⟩
        · have hw := hw1 c hc
          constructor
          · intro he; rw [he] at hw; exact absurd hw (by decide)
          · intro he; rw [he] at hw; exact absurd hw (by decide))]
    rw [Option.some_bind, hload]

/-- C5 (counterexample).  "[1]" is a well-formed JSON array and
"See [note]: " is leading prose with zero fences, yet
`parse_json_response` returns the sentinel rather than the value of
the first well-formed array: the direct load fails and the greedy
`\[[\s\S]*\]` regex spans from the prose's "[note]" to the end, and
"[note]: [1]" is not JSON. -/
theorem C5_counterexample :
    jsonLoads (S "[1]") = some (.arr [jint 1]) ∧
    S "See [note]: " ++ S "[1]" = S "See [note]: [1]" ∧
    parse_json_response (S "See [note]: " ++ S "[1]") = none :=
  ⟨rfl, rfl, rfl⟩

/-- C5 witness: the amended theorem at a concrete fenced reply with
leading prose. -/
theorem C5_witness :
    parse_json_response
      (S "Here is the list: " ++ S "```json\n" ++ ('[' :: (S "1, 2" ++ [']'])) ++ S "\n```") =
      some (.arr [jint 1, jint 2]) :=
  C5_parse_json_fenced_array (S "Here is the list: ") (S "```json\n") (S "1, 2") (S "\n```")
    (.arr [jint 1, jint 2]) (by decide)
    (FenceJunk.fenceJson (FenceJunk.ws (by decide) FenceJunk.nil))
    (FenceJunk.ws (by decide) (FenceJunk.fence FenceJunk.nil))
    (by decide) (by rfl)
